import Mathlib

/-!
Verification development for the invoice-processing extraction core
(`api/processor.py`).  The Python functions `extract_total`, `extract_date`,
`extract_vendor_nlp`, `extract_vendor`, `extract_with_ai` and
`extract_invoice_data` are shallowly embedded below.  The regular expressions
of the source are embedded by a small continuation-passing backtracking
matcher whose combinators reproduce Python `re` semantics on the constructs
the source uses: leftmost match, ordered alternation, greedy quantifiers with
backtracking.  Character classes are modelled over the ASCII range (the
source only ever feeds ASCII-relevant patterns).  All definitions are
executable and fuel-based so that concrete runs reduce in the kernel.
-/

set_option maxHeartbeats 4000000
set_option maxRecDepth 4096

namespace InvoiceProc

/-- Python whitespace class, as used by `\s` and `str.strip` (ASCII range). -/
def pySpace (c : Char) : Bool :=
  c == ' ' || c == '\t' || c == '\n' || c == '\r' || c == '\x0b' || c == '\x0c'

/-- Python word-character class `\w` (ASCII range). -/
def isWordChar (c : Char) : Bool :=
  c.isAlphanum || c == '_'

/-- Python `str.strip()` on a character list. -/
def pyTrim (l : List Char) : List Char :=
  (l.dropWhile pySpace).rdropWhile pySpace

/-- Python `text.split('\n')`. -/
def splitNL : List Char → List (List Char)
  | [] => [[]]
  | c :: rest =>
    let r := splitNL rest
    if c == '\n' then [] :: r
    else
      match r with
      | [] => [[c]]
      | h :: t => (c :: h) :: t

/-!
The matcher type.  A matcher receives the reversed list of characters
consumed so far (`acc`), the remaining input (`s`) and a continuation; it
either produces the continuation's answer on some way of consuming a prefix
of `s`, exploring alternatives in Python `re` backtracking order, or fails
with `none`.
-/

def MK (β : Type) : Type :=
  List Char → List Char → (List Char → List Char → Option β) → Option β

/-- Matcher that always fails. -/
def failM {β : Type} : MK β := fun _ _ _ => none

/-- Matcher consuming nothing. -/
def emptyM {β : Type} : MK β := fun acc s k => k acc s

/-- Single character from a class (`[...]`, `\d`, `\s`, `.`). -/
def clsM {β : Type} (p : Char → Bool) : MK β := fun acc s k =>
  match s with
  | [] => none
  | c :: rest => if p c then k (c :: acc) rest else none

/-- Character comparison, optionally case-insensitive (`re.IGNORECASE`). -/
def charEqCI (ci : Bool) (p c : Char) : Bool :=
  if ci then p.toLower == c.toLower else p == c

/-- Literal word of the pattern, optionally case-insensitive. -/
def litM {β : Type} (ci : Bool) : List Char → MK β
  | [] => emptyM
  | p :: ps => fun acc s k =>
    match s with
    | [] => none
    | c :: rest => if charEqCI ci p c then litM ci ps (c :: acc) rest k else none

/-- Sequencing of two subpatterns. -/
def seqM {β : Type} (m1 m2 : MK β) : MK β :=
  fun acc s k => m1 acc s (fun a s2 => m2 a s2 k)

/-- Ordered alternation, first alternative preferred (Python `|`). -/
def altM {β : Type} (m1 m2 : MK β) : MK β :=
  fun acc s k => (m1 acc s k) <|> (m2 acc s k)

/-- Greedy option (`?`), presence preferred. -/
def optM {β : Type} (m : MK β) : MK β :=
  fun acc s k => (m acc s k) <|> k acc s

/-- Greedy Kleene star (`*`), longest first, with explicit fuel.  Every
starred subpattern of the source consumes at least one character, so any
fuel at least the length of the remaining input is exact. -/
def starM {β : Type} (m : MK β) : Nat → MK β
  | 0 => emptyM
  | fuel + 1 => fun acc s k =>
    (m acc s (fun a s2 => starM m fuel a s2 k)) <|> k acc s

/-- Greedy bounded repetition `{0,n}`. -/
def repAtMostM {β : Type} (m : MK β) : Nat → MK β
  | 0 => emptyM
  | n + 1 => fun acc s k =>
    (m acc s (fun a s2 => repAtMostM m n a s2 k)) <|> k acc s

/-- Exact repetition `{n}`. -/
def repExactM {β : Type} (m : MK β) : Nat → MK β
  | 0 => emptyM
  | n + 1 => seqM m (repExactM m n)

/-- Greedy plus (`+`). -/
def plusM {β : Type} (m : MK β) (fuel : Nat) : MK β :=
  seqM m (starM m fuel)

/-- Greedy range `{lo,lo+extra}`. -/
def repRangeM {β : Type} (m : MK β) (lo extra : Nat) : MK β :=
  seqM (repExactM m lo) (repAtMostM m extra)

/-- Ordered alternation over a list of subpatterns. -/
def altList {β : Type} : List (MK β) → MK β
  | [] => failM
  | m :: ms => altM m (altList ms)

/-- Python `re.search`: try a match at each position from left to right,
returning the first position at which the pattern matches.  `prev` carries
the character before the current position, for `\b` assertions. -/
def searchM {β : Type} (matchAt : Option Char → List Char → Option β) :
    Option Char → List Char → Option β
  | prev, s =>
    (matchAt prev s) <|>
      (match s with
       | [] => none
       | c :: rest => searchM matchAt (some c) rest)

/-- Word boundary `\b` immediately before a word character: satisfied at the
start of the text or after a non-word character. -/
def boundaryBefore (prev : Option Char) : Bool :=
  match prev with
  | none => true
  | some c => !(isWordChar c)

/-- Word boundary `\b` immediately after a word character: satisfied at the
end of the text or before a non-word character. -/
def boundaryAfter (s : List Char) : Bool :=
  match s with
  | [] => true
  | c :: _ => !(isWordChar c)

/-! Character classes used by the source's patterns. -/

def wsColon (c : Char) : Bool := pySpace c || c == ':'

def isCurrencySym (c : Char) : Bool := c == '$' || c == '€' || c == '£'

def isGroupSep1 (c : Char) : Bool := c == ',' || c == '.' || pySpace c

def isDecimalSep (c : Char) : Bool := c == '.' || c == ','

def isDateSep (c : Char) : Bool := c == '/' || c == '-' || c == '.'

/-- Characters kept by `re.sub(r'[^\w\s&.-]', '', _)` in `extract_vendor_nlp`. -/
def keepChar (c : Char) : Bool :=
  isWordChar c || pySpace c || c == '&' || c == '.' || c == '-'

/-!
`extract_total` (processor.py lines 384-423).

Pattern 1:
`(?:Total|Amount\s+Due|Balance\s+Due|Grand\s+Total|Invoice\s+Total)[\s:]*[\$€£]?\s*(\d{1,3}(?:[,.\s]\d{3})*(?:[.,]\d{2})?)`
searched with `re.IGNORECASE`; on a match the code returns `group(0).strip()`.

Pattern 2: `[\$€£]\s*(\d{1,3}(?:,\d{3})*(?:\.\d{2})?)`, used with
`re.findall`; the largest amount (first on ties, matching Python `max`) is
returned as `"$" + amount`.
-/

def totalKw {β : Type} (fuel : Nat) : MK β :=
  altList
    [ litM true ("Total").data,
      seqM (litM true ("Amount").data)
        (seqM (plusM (clsM pySpace) fuel) (litM true ("Due").data)),
      seqM (litM true ("Balance").data)
        (seqM (plusM (clsM pySpace) fuel) (litM true ("Due").data)),
      seqM (litM true ("Grand").data)
        (seqM (plusM (clsM pySpace) fuel) (litM true ("Total").data)),
      seqM (litM true ("Invoice").data)
        (seqM (plusM (clsM pySpace) fuel) (litM true ("Total").data)) ]

/-- Thousands group `(?:[,.\s]\d{3})` of pattern 1. -/
def grp3 {β : Type} : MK β :=
  seqM (clsM isGroupSep1) (repExactM (clsM Char.isDigit) 3)

/-- Decimal tail `(?:[.,]\d{2})` of pattern 1. -/
def dec2 {β : Type} : MK β :=
  seqM (clsM isDecimalSep) (repExactM (clsM Char.isDigit) 2)

/-- Captured amount `(\d{1,3}(?:[,.\s]\d{3})*(?:[.,]\d{2})?)` of pattern 1. -/
def amount1 {β : Type} (fuel : Nat) : MK β :=
  seqM (repRangeM (clsM Char.isDigit) 1 2)
    (seqM (starM grp3 fuel) (optM dec2))

/-- Everything of pattern 1 before the capture group:
keyword, `[\s:]*`, `[\$€£]?`, `\s*`. -/
def totalP1Pre {β : Type} (fuel : Nat) : MK β :=
  seqM (totalKw fuel)
    (seqM (starM (clsM wsColon) fuel)
      (seqM (optM (clsM isCurrencySym)) (starM (clsM pySpace) fuel)))

/-- Attempt pattern 1 at the current position; on success return `group(0)`. -/
def totalP1MatchAt (fuel : Nat) (s : List Char) : Option (List Char) :=
  totalP1Pre fuel [] s (fun a1 s1 =>
    amount1 fuel [] s1 (fun a2 _ => some (a1.reverse ++ a2.reverse)))

/-- Captured amount `(\d{1,3}(?:,\d{3})*(?:\.\d{2})?)` of pattern 2. -/
def amount2 {β : Type} (fuel : Nat) : MK β :=
  seqM (repRangeM (clsM Char.isDigit) 1 2)
    (seqM (starM (seqM (clsM (fun c => c == ',')) (repExactM (clsM Char.isDigit) 3)) fuel)
      (optM (seqM (clsM (fun c => c == '.')) (repExactM (clsM Char.isDigit) 2))))

/-- Attempt pattern 2 at the current position; on success return the
captured group and the remaining input after the whole match. -/
def totalP2MatchAt (fuel : Nat) (s : List Char) : Option (List Char × List Char) :=
  (seqM (clsM isCurrencySym) (starM (clsM pySpace) fuel) : MK (List Char × List Char))
    [] s (fun _ s1 => amount2 fuel [] s1 (fun a2 s2 => some (a2.reverse, s2)))

/-- Python `re.findall(pattern2, text)`: scan left to right, collecting the
capture of every non-overlapping match and resuming after each match. -/
def findAllP2 (fuel : Nat) : Nat → List Char → List (List Char)
  | 0, _ => []
  | _ + 1, [] => []
  | n + 1, c :: rest =>
    match totalP2MatchAt fuel (c :: rest) with
    | some (g, rem) => g :: findAllP2 fuel n rem
    | none => findAllP2 fuel n rest

def digitVal (c : Char) : Nat := c.toNat - 48

/-- Numeric value in cents of a pattern-2 capture with the commas removed
(integer digits, optionally followed by a dot and two digits).  Python
compares the amounts as floats; on every comparison the source can make,
the float ordering agrees with this exact ordering. -/
def centsOfAux : List Char → Nat → Nat
  | [], acc => acc * 100
  | c :: rest, acc =>
    if c == '.' then acc * 100 + rest.foldl (fun a d => a * 10 + digitVal d) 0
    else centsOfAux rest (acc * 10 + digitVal c)

def centsOf (g : List Char) : Nat :=
  centsOfAux (g.filter (fun c => !(c == ','))) 0

/-- Python `max(amounts, key=...)`: first element of maximal value. -/
def bestAmt (first : List Char) (rest : List (List Char)) : List Char :=
  rest.foldl (fun best x => if centsOf x > centsOf best then x else best) first

/-- Embedding of `extract_total` (processor.py lines 384-423). -/
def extract_total (text : String) : Option String :=
  let cs := text.data
  let fuel := cs.length + 1
  match searchM (fun _ s => totalP1MatchAt fuel s) none cs with
  | some g0 => some (String.mk (pyTrim g0))
  | none =>
    match findAllP2 fuel (cs.length + 1) cs with
    | [] => none
    | m0 :: ms => some (String.mk ('$' :: bestAmt m0 ms))

/-!
`extract_date` (processor.py lines 329-381).  Pattern 7
`(?:Date|Invoice\s+Date|Bill\s+Date|Due\s+Date)[\s:]*(\d{1,2}[\/\-\.]\d{1,2}[\/\-\.]\d{2,4})`
is tried first and returns `group(1)`; then patterns 3, 4, 1, 2, 5, 6 are
tried in that order, each returning `group(0)`.  All searches use
`re.IGNORECASE`.
-/

def dateKw {β : Type} (fuel : Nat) : MK β :=
  altList
    [ litM true ("Date").data,
      seqM (litM true ("Invoice").data)
        (seqM (plusM (clsM pySpace) fuel) (litM true ("Date").data)),
      seqM (litM true ("Bill").data)
        (seqM (plusM (clsM pySpace) fuel) (litM true ("Date").data)),
      seqM (litM true ("Due").data)
        (seqM (plusM (clsM pySpace) fuel) (litM true ("Date").data)) ]

/-- The captured group of pattern 7: `\d{1,2}[\/\-\.]\d{1,2}[\/\-\.]\d{2,4}`. -/
def dateNum {β : Type} : MK β :=
  seqM (repRangeM (clsM Char.isDigit) 1 1)
    (seqM (clsM isDateSep)
      (seqM (repRangeM (clsM Char.isDigit) 1 1)
        (seqM (clsM isDateSep) (repRangeM (clsM Char.isDigit) 2 2))))

/-- Attempt pattern 7 at the current position; returns `group(1)`. -/
def dateP7MatchAt (fuel : Nat) (s : List Char) : Option (List Char) :=
  (seqM (dateKw fuel) (starM (clsM wsColon) fuel) : MK (List Char))
    [] s (fun _ s1 => dateNum [] s1 (fun a2 _ => some a2.reverse))

/-- Numeric date with a fixed separator and `\b` at both ends, used by
patterns 1 (`/`), 2 (`-`) and 4 (`.`):  `\b\d{1,2}X\d{1,2}X\d{2,4}\b`. -/
def dateSepMatchAt (sep : Char) (prev : Option Char) (s : List Char) :
    Option (List Char) :=
  if boundaryBefore prev then
    (seqM (repRangeM (clsM Char.isDigit) 1 1)
      (seqM (clsM (fun c => c == sep))
        (seqM (repRangeM (clsM Char.isDigit) 1 1)
          (seqM (clsM (fun c => c == sep)) (repRangeM (clsM Char.isDigit) 2 2))) :
        MK (List Char)))
      [] s (fun a s2 => if boundaryAfter s2 then some a.reverse else none)
  else none

/-- Pattern 3, ISO form `\b\d{4}-\d{1,2}-\d{1,2}\b`. -/
def dateIsoMatchAt (prev : Option Char) (s : List Char) : Option (List Char) :=
  if boundaryBefore prev then
    (seqM (repExactM (clsM Char.isDigit) 4)
      (seqM (clsM (fun c => c == '-'))
        (seqM (repRangeM (clsM Char.isDigit) 1 1)
          (seqM (clsM (fun c => c == '-')) (repRangeM (clsM Char.isDigit) 1 1))) :
        MK (List Char)))
      [] s (fun a s2 => if boundaryAfter s2 then some a.reverse else none)
  else none

/-- Month-name alternatives of patterns 5 and 6, in source order. -/
def monthWords : List (List Char) :=
  [ ("January").data, ("February").data, ("March").data, ("April").data,
    ("May").data, ("June").data, ("July").data, ("August").data,
    ("September").data, ("October").data, ("November").data, ("December").data,
    ("Jan").data, ("Feb").data, ("Mar").data, ("Apr").data, ("May").data,
    ("Jun").data, ("Jul").data, ("Aug").data, ("Sep").data, ("Oct").data,
    ("Nov").data, ("Dec").data ]

def monthAlt {β : Type} : MK β :=
  altList (monthWords.map (litM true))

/-- Pattern 5: `\bMonth\.?\s+\d{1,2},?\s+\d{4}\b`. -/
def dateMonthDayMatchAt (fuel : Nat) (prev : Option Char) (s : List Char) :
    Option (List Char) :=
  if boundaryBefore prev then
    (seqM monthAlt
      (seqM (optM (clsM (fun c => c == '.')))
        (seqM (plusM (clsM pySpace) fuel)
          (seqM (repRangeM (clsM Char.isDigit) 1 1)
            (seqM (optM (clsM (fun c => c == ',')))
              (seqM (plusM (clsM pySpace) fuel)
                (repExactM (clsM Char.isDigit) 4)))))) : MK (List Char))
      [] s (fun a s2 => if boundaryAfter s2 then some a.reverse else none)
  else none

/-- Pattern 6: `\b\d{1,2}\s+Month\.?\s+\d{4}\b`. -/
def dateDayMonthMatchAt (fuel : Nat) (prev : Option Char) (s : List Char) :
    Option (List Char) :=
  if boundaryBefore prev then
    (seqM (repRangeM (clsM Char.isDigit) 1 1)
      (seqM (plusM (clsM pySpace) fuel)
        (seqM monthAlt
          (seqM (optM (clsM (fun c => c == '.')))
            (seqM (plusM (clsM pySpace) fuel)
              (repExactM (clsM Char.isDigit) 4))))) : MK (List Char))
      [] s (fun a s2 => if boundaryAfter s2 then some a.reverse else none)
  else none

/-- The fallback loop over patterns 3, 4, 1, 2, 5, 6 of `extract_date`. -/
def firstPatMatch : List (Option Char → List Char → Option (List Char)) →
    List Char → Option String
  | [], _ => none
  | p :: ps, cs =>
    match searchM p none cs with
    | some g => some (String.mk g)
    | none => firstPatMatch ps cs

/-- Embedding of `extract_date` (processor.py lines 329-381). -/
def extract_date (text : String) : Option String :=
  let cs := text.data
  let fuel := cs.length + 1
  match searchM (fun _ s => dateP7MatchAt fuel s) none cs with
  | some g => some (String.mk g)
  | none =>
    firstPatMatch
      [ dateIsoMatchAt, dateSepMatchAt '.', dateSepMatchAt '/',
        dateSepMatchAt '-', dateMonthDayMatchAt fuel, dateDayMonthMatchAt fuel ]
      cs

/-!
`extract_vendor_nlp` (processor.py lines 265-326).
-/

/-- Keyword alternation of the first label pattern
`(?:Bill\s+From|From|Vendor|Sold\s+by|Invoice\s+from)`. -/
def labelKwA {β : Type} (fuel : Nat) : MK β :=
  altList
    [ seqM (litM true ("Bill").data)
        (seqM (plusM (clsM pySpace) fuel) (litM true ("From").data)),
      litM true ("From").data,
      litM true ("Vendor").data,
      seqM (litM true ("Sold").data)
        (seqM (plusM (clsM pySpace) fuel) (litM true ("by").data)),
      seqM (litM true ("Invoice").data)
        (seqM (plusM (clsM pySpace) fuel) (litM true ("from").data)) ]

/-- Keyword alternation of the second label pattern
`(?:Billed\s+by|Supplier|Company)`. -/
def labelKwB {β : Type} (fuel : Nat) : MK β :=
  altList
    [ seqM (litM true ("Billed").data)
        (seqM (plusM (clsM pySpace) fuel) (litM true ("by").data)),
      litM true ("Supplier").data,
      litM true ("Company").data ]

/-- Attempt a label pattern `kw[\s:]+(.+)` at the current position of a
line; returns `group(1)`. -/
def labelGroupAt (kw : MK (List Char)) (fuel : Nat) (s : List Char) :
    Option (List Char) :=
  (seqM kw (plusM (clsM wsColon) fuel)) [] s (fun _ s1 =>
    (plusM (clsM (fun c => !(c == '\n'))) fuel) [] s1 (fun a2 _ => some a2.reverse))

/-- One line of strategy 1: search the label pattern, clean the capture,
and accept it if non-empty and longer than 2 characters. -/
def strategy1Line (kw : MK (List Char)) (fuel : Nat) (line : List Char) :
    Option (List Char) :=
  match searchM (fun _ s => labelGroupAt kw fuel s) none line with
  | none => none
  | some g1 =>
    let v := (pyTrim g1).filter keepChar
    if v ≠ [] ∧ 2 < v.length then some v else none

/-- Strategy 1 of `extract_vendor_nlp`: for each pattern in order, scan all
lines for a label-anchored vendor. -/
def strategy1 (fuel : Nat) (lines : List (List Char)) : Option (List Char) :=
  (lines.findSome? (strategy1Line (labelKwA fuel) fuel)) <|>
    (lines.findSome? (strategy1Line (labelKwB fuel) fuel))

/-- The skip test `^\d+$` of strategy 2 (on a non-empty line). -/
def allDigits (l : List Char) : Bool := l.all Char.isDigit

/-- The skip test for lines of digits, whitespace and the separators
dash, slash and parentheses (strategy 2, on a non-empty line). -/
def allDigitsSeps (l : List Char) : Bool :=
  l.all (fun c => c.isDigit || pySpace c || c == '-' || c == '/' || c == '(' || c == ')')

/-- The capitalized-run test `[A-Z][a-z]+` of strategy 2. -/
def upperLowerMatchAt (fuel : Nat) (s : List Char) : Option (List Char) :=
  (seqM (clsM Char.isUpper) (plusM (clsM Char.isLower) fuel) : MK (List Char))
    [] s (fun a _ => some a.reverse)

/-- One line of strategy 2. -/
def strategy2Line (fuel : Nat) (line : List Char) : Option (List Char) :=
  let l := pyTrim line
  if l.length < 3 then none
  else if allDigits l then none
  else if allDigitsSeps l then none
  else
    match searchM (fun _ s => upperLowerMatchAt fuel s) none l with
    | none => none
    | some _ =>
      let cleaned := pyTrim (l.filter keepChar)
      if cleaned ≠ [] ∧ 2 < cleaned.length ∧ cleaned.length < 100 then some cleaned
      else none

/-- Strategy 2 of `extract_vendor_nlp`: first five lines, top of document. -/
def strategy2 (fuel : Nat) (lines : List (List Char)) : Option (List Char) :=
  (lines.take 5).findSome? (strategy2Line fuel)

/-- Company-suffix alternation `(?:Inc|LLC|Ltd|Corp|Corporation|Co|Company|Group|Enterprises|Solutions)`
of strategy 3, in source order, case-sensitive. -/
def suffixWords : List (List Char) :=
  [ ("Inc").data, ("LLC").data, ("Ltd").data, ("Corp").data,
    ("Corporation").data, ("Co").data, ("Company").data, ("Group").data,
    ("Enterprises").data, ("Solutions").data ]

def suffixAlt {β : Type} : MK β :=
  altList (suffixWords.map (litM false))

/-- Attempt the company pattern
`([A-Z][A-Za-z\s&.-]+(?:Inc|LLC|Ltd|Corp|Corporation|Co|Company|Group|Enterprises|Solutions)\.?)`
at the current position; returns `group(1)` (the whole match). -/
def companyMatchAt (fuel : Nat) (s : List Char) : Option (List Char) :=
  (seqM (clsM Char.isUpper)
    (seqM (plusM (clsM (fun c => c.isAlpha || pySpace c || c == '&' || c == '.' || c == '-')) fuel)
      (seqM suffixAlt (optM (clsM (fun c => c == '.'))))) : MK (List Char))
    [] s (fun a _ => some a.reverse)

/-- One line of strategy 3. -/
def strategy3Line (fuel : Nat) (line : List Char) : Option (List Char) :=
  match searchM (fun _ s => companyMatchAt fuel s) none line with
  | none => none
  | some g =>
    let v := pyTrim g
    if 3 < v.length then some v else none

/-- Strategy 3 of `extract_vendor_nlp`: first ten lines, company suffixes. -/
def strategy3 (fuel : Nat) (lines : List (List Char)) : Option (List Char) :=
  (lines.take 10).findSome? (strategy3Line fuel)

/-- Embedding of `extract_vendor_nlp` (processor.py lines 265-326). -/
def extract_vendor_nlp (text : String) : Option String :=
  if text.data = [] then none
  else
    let lines := splitNL (pyTrim text.data)
    let fuel := text.data.length + 1
    match strategy1 fuel lines with
    | some v => some (String.mk v)
    | none =>
      match strategy2 fuel lines with
      | some v => some (String.mk v)
      | none =>
        match strategy3 fuel lines with
        | some v => some (String.mk v)
        | none => none

/-- Embedding of the deprecated `extract_vendor` (processor.py lines
250-262): the body is a bare `return None`. -/
def extract_vendor (text : String) (known_vendors : List String) : Option String :=
  none

/-!
JSON values and a recursive-descent reading of Python `json.loads`, used by
the embedding of `extract_with_ai`.  Numbers keep their raw lexeme (the
source never inspects numeric values).
-/

inductive Json where
  | null : Json
  | bool : Bool → Json
  | num : String → Json
  | str : String → Json
  | arr : List Json → Json
  | obj : List (String × Json) → Json

/-- JSON insignificant whitespace (exactly what `json.loads` skips). -/
def jsonWs (c : Char) : Bool :=
  c == ' ' || c == '\t' || c == '\n' || c == '\r'

def skipWs (s : List Char) : List Char := s.dropWhile jsonWs

def hexVal (c : Char) : Option Nat :=
  if c.isDigit then some (c.toNat - 48)
  else if 'a' ≤ c ∧ c ≤ 'f' then some (c.toNat - 87)
  else if 'A' ≤ c ∧ c ≤ 'F' then some (c.toNat - 55)
  else none

/-- JSON string body after the opening quote, with the standard escapes. -/
def parseStrAux : List Char → List Char → Option (String × List Char)
  | [], _ => none
  | '"' :: rest, acc => some (String.mk acc.reverse, rest)
  | '\\' :: rest, acc =>
    match rest with
    | [] => none
    | e :: rest2 =>
      if e == '"' then parseStrAux rest2 ('"' :: acc)
      else if e == '\\' then parseStrAux rest2 ('\\' :: acc)
      else if e == '/' then parseStrAux rest2 ('/' :: acc)
      else if e == 'b' then parseStrAux rest2 ('\x08' :: acc)
      else if e == 'f' then parseStrAux rest2 ('\x0c' :: acc)
      else if e == 'n' then parseStrAux rest2 ('\n' :: acc)
      else if e == 'r' then parseStrAux rest2 ('\r' :: acc)
      else if e == 't' then parseStrAux rest2 ('\t' :: acc)
      else if e == 'u' then
        match rest2 with
        | h1 :: h2 :: h3 :: h4 :: rest3 =>
          match hexVal h1, hexVal h2, hexVal h3, hexVal h4 with
          | some a, some b, some c, some d =>
            parseStrAux rest3 (Char.ofNat (((a * 16 + b) * 16 + c) * 16 + d) :: acc)
          | _, _, _, _ => none
        | _ => none
      else none
  | c :: rest, acc =>
    if c.toNat < 32 then none else parseStrAux rest (c :: acc)

/-- Integer part of a JSON number after the optional sign:
`0 | [1-9][0-9]*`. -/
def parseNumInt (s : List Char) : Option (List Char × List Char) :=
  match s with
  | '0' :: rest => some (['0'], rest)
  | c :: _ =>
    if c.isDigit then some (s.takeWhile Char.isDigit, s.dropWhile Char.isDigit)
    else none
  | [] => none

/-- Optional fraction part `(\.[0-9]+)?`. -/
def parseNumFrac (s : List Char) : Option (List Char × List Char) :=
  match s with
  | '.' :: rest =>
    let ds := rest.takeWhile Char.isDigit
    if ds = [] then none else some ('.' :: ds, rest.dropWhile Char.isDigit)
  | _ => some ([], s)

/-- Optional exponent part `([eE][+-]?[0-9]+)?`. -/
def parseNumExp (s : List Char) : Option (List Char × List Char) :=
  match s with
  | e :: rest =>
    if e == 'e' || e == 'E' then
      let st : List Char × List Char :=
        match rest with
        | '+' :: r2 => (['+'], r2)
        | '-' :: r2 => (['-'], r2)
        | _ => ([], rest)
      let ds := st.2.takeWhile Char.isDigit
      if ds = [] then none
      else some (e :: st.1 ++ ds, st.2.dropWhile Char.isDigit)
    else some ([], s)
  | [] => some ([], [])

/-- JSON number lexeme: `-? (0 | [1-9][0-9]*) (\.[0-9]+)? ([eE][+-]?[0-9]+)?`. -/
def parseNum (s : List Char) : Option (String × List Char) :=
  let (sign, s1) : List Char × List Char :=
    match s with
    | '-' :: rest => (['-'], rest)
    | _ => ([], s)
  match parseNumInt s1 with
  | none => none
  | some (ip, s2) =>
    match parseNumFrac s2 with
    | none => none
    | some (fp, s3) =>
      match parseNumExp s3 with
      | none => none
      | some (ep, s4) => some (String.mk (sign ++ ip ++ fp ++ ep), s4)

mutual

/-- One JSON value (fuel-based recursion). -/
def parseVal : Nat → List Char → Option (Json × List Char)
  | 0, _ => none
  | fuel + 1, input =>
    let s := skipWs input
    match s with
    | [] => none
    | c :: rest =>
      if c == 'n' then
        if ("ull").data.isPrefixOf rest then some (Json.null, rest.drop 3) else none
      else if c == 't' then
        if ("rue").data.isPrefixOf rest then some (Json.bool true, rest.drop 3) else none
      else if c == 'f' then
        if ("alse").data.isPrefixOf rest then some (Json.bool false, rest.drop 4) else none
      else if c == '"' then
        match parseStrAux rest [] with
        | some (str, rem) => some (Json.str str, rem)
        | none => none
      else if c == '[' then
        let s2 := skipWs rest
        match s2 with
        | ']' :: rem => some (Json.arr [], rem)
        | _ =>
          match parseArrItems fuel s2 with
          | some (items, rem) => some (Json.arr items, rem)
          | none => none
      else if c == '\x7b' then
        let s2 := skipWs rest
        match s2 with
        | '\x7d' :: rem => some (Json.obj [], rem)
        | _ =>
          match parseObjItems fuel s2 with
          | some (fields, rem) => some (Json.obj fields, rem)
          | none => none
      else if c == '-' || c.isDigit then
        match parseNum s with
        | some (lex, rem) => some (Json.num lex, rem)
        | none => none
      else none

/-- Non-empty comma-separated array items, up to and including `]`. -/
def parseArrItems : Nat → List Char → Option (List Json × List Char)
  | 0, _ => none
  | fuel + 1, s =>
    match parseVal fuel s with
    | none => none
    | some (v, rem) =>
      match skipWs rem with
      | ',' :: rem2 =>
        match parseArrItems fuel rem2 with
        | some (vs, rem3) => some (v :: vs, rem3)
        | none => none
      | ']' :: rem2 => some ([v], rem2)
      | _ => none

/-- Non-empty comma-separated object members, up to and including the
closing brace. -/
def parseObjItems : Nat → List Char → Option (List (String × Json) × List Char)
  | 0, _ => none
  | fuel + 1, s =>
    match skipWs s with
    | '"' :: rest =>
      match parseStrAux rest [] with
      | none => none
      | some (key, rem) =>
        match skipWs rem with
        | ':' :: rem2 =>
          match parseVal fuel rem2 with
          | none => none
          | some (v, rem3) =>
            match skipWs rem3 with
            | ',' :: rem4 =>
              match parseObjItems fuel rem4 with
              | some (fs, rem5) => some ((key, v) :: fs, rem5)
              | none => none
            | '\x7d' :: rem4 => some ([(key, v)], rem4)
            | _ => none
        | _ => none
    | _ => none

end

/-- Embedding of Python `json.loads`: one value, optional surrounding
whitespace, nothing after it. -/
def parseJson (s : List Char) : Option Json :=
  match parseVal (s.length + 1) s with
  | some (v, rem) => if skipWs rem = [] then some v else none
  | none => none

/-- Dictionary lookup as built by `json.loads`: later duplicate keys win. -/
def jlookup (fields : List (String × Json)) (key : String) : Option Json :=
  fields.foldl (fun acc p => if p.1 == key then some p.2 else acc) none

/-- Python `data.get(key)` on a parsed JSON object: `none` models Python
`None`, produced both by an absent key and by a JSON `null` value. -/
def pyGetField (data : Json) (key : String) : Option Json :=
  match data with
  | Json.obj fs =>
    match jlookup fs key with
    | some Json.null => none
    | some v => some v
    | none => none
  | _ => none

/-- Python `data.get('line_items', [])`: an absent key defaults to the
empty list, a JSON `null` value is Python `None`. -/
def pyGetLineItems (data : Json) : Option Json :=
  match data with
  | Json.obj fs =>
    match jlookup fs ("line_items") with
    | some Json.null => none
    | some v => some v
    | none => some (Json.arr [])
  | _ => none

/-- The record `extract_with_ai` builds from the model's JSON answer
(processor.py lines 171-180).  A `none` field models Python `None`. -/
structure AiRecord where
  vendor : Option Json
  date : Option Json
  total : Option Json
  invoice_number : Option Json
  tax : Option Json
  subtotal : Option Json
  summary : Option Json
  line_items : Option Json

/-- Outcome of the single `requests.post` call of `extract_with_ai`, the
external collaborator of the adapter. -/
inductive HttpOutcome where
  | timeout : HttpOutcome
  | netError : String → HttpOutcome
  | ok : Nat → Json → HttpOutcome

/-- Python `s.replace(pat, '')` for a non-empty `pat`: remove every
non-overlapping occurrence, scanning left to right. -/
def removeAllAux (pat : List Char) : Nat → List Char → List Char
  | 0, s => s
  | _ + 1, [] => []
  | n + 1, c :: rest =>
    if pat.isPrefixOf (c :: rest) then
      removeAllAux pat n ((c :: rest).drop pat.length)
    else c :: removeAllAux pat n rest

def removeAll (s pat : String) : String :=
  String.mk (removeAllAux pat.data (s.data.length + 1) s.data)

/-- Navigation `result['candidates'][0]['content']['parts'][0]['text']`
guarded by `'candidates' in result and len(result['candidates']) > 0`; any
shape mismatch raises in Python and is caught by the blanket handler,
yielding `None`. -/
def getCandidateText (body : Json) : Option String :=
  match body with
  | Json.obj fs =>
    match jlookup fs ("candidates") with
    | some (Json.arr (c0 :: _)) =>
      match c0 with
      | Json.obj cfs =>
        match jlookup cfs ("content") with
        | some (Json.obj cofs) =>
          match jlookup cofs ("parts") with
          | some (Json.arr (p0 :: _)) =>
            match p0 with
            | Json.obj pfs =>
              match jlookup pfs ("text") with
              | some (Json.str t) => some t
              | _ => none
            | _ => none
          | _ => none
        | _ => none
      | _ => none
    | _ => none
  | _ => none

/-- Markdown code-fence stripping of processor.py line 166:
`generated_text.replace('```json', '').replace('```', '').strip()`. -/
def stripFences (gt : String) : String :=
  String.mk (pyTrim ((removeAll (removeAll gt ("```json")) ("```")).data))

/-- Embedding of `extract_with_ai` (processor.py lines 74-203).  The
environment variable `GEMINI_API_KEY` and the HTTP call are the function's
two effectful inputs and are passed as explicit parameters; every Python
exception path of the body is a `none`. -/
def extract_with_ai (geminiKey : Option String) (http : HttpOutcome)
    (text : String) : Option AiRecord :=
  match geminiKey with
  | none => none
  | some _ =>
    match http with
    | HttpOutcome.timeout => none
    | HttpOutcome.netError _ => none
    | HttpOutcome.ok status body =>
      if status ≠ 200 then none
      else
        match getCandidateText body with
        | none => none
        | some gt =>
          match parseJson (stripFences gt).data with
          | none => none
          | some data =>
            match data with
            | Json.obj _ =>
              some
                { vendor := pyGetField data ("vendor"),
                  date := pyGetField data ("date"),
                  total := pyGetField data ("total"),
                  invoice_number := pyGetField data ("invoice_number"),
                  tax := pyGetField data ("tax"),
                  subtotal := pyGetField data ("subtotal"),
                  summary := pyGetField data ("summary"),
                  line_items := pyGetLineItems data }
            | _ => none

/-- The result dictionary of `extract_invoice_data`.  The Python branches
build dictionaries with different key sets; a `none` field models a key
that is absent or bound to `None` (both read back as `None`). -/
structure ExtractionResult where
  vendor : Option Json
  date : Option Json
  total : Option Json
  invoice_number : Option Json
  tax : Option Json
  subtotal : Option Json
  summary : Option Json
  line_items : Option Json
  error : Option String
  ai_used : Option Bool

/-- The error dictionary built on OCR failure (processor.py lines 30-43):
only `vendor`, `date`, `total` and `error` keys, the first three `None`. -/
def ocrErrorResult (detail : String) : ExtractionResult :=
  { vendor := none, date := none, total := none, invoice_number := none,
    tax := none, subtotal := none, summary := none, line_items := none,
    error := some ("OCR failed: " ++ detail), ai_used := none }

/-- Outcome of the `perform_ocr` collaborator call: either an exception
with message, or a returned value (`None` or a string). -/
inductive OcrOutcome where
  | raised : String → OcrOutcome
  | returned : Option String → OcrOutcome

/-- Embedding of `extract_invoice_data` (processor.py lines 12-71),
parameterized over the OCR outcome, the AI adapter and the three fallback
extractors. -/
def extract_invoice_data_gen (ocr : OcrOutcome) (ai : String → Option AiRecord)
    (vendorF dateF totalF : String → Option String) : ExtractionResult :=
  match ocr with
  | OcrOutcome.raised e => ocrErrorResult e
  | OcrOutcome.returned t =>
    let raw := t.getD ("")
    if raw.data = [] then ocrErrorResult ("No text extracted")
    else
      match ai raw with
      | some r =>
        { vendor := r.vendor, date := r.date, total := r.total,
          invoice_number := r.invoice_number, tax := r.tax,
          subtotal := r.subtotal, summary := r.summary,
          line_items := r.line_items, error := none, ai_used := some true }
      | none =>
        { vendor := (vendorF raw).map Json.str,
          date := (dateF raw).map Json.str,
          total := (totalF raw).map Json.str,
          invoice_number := none, tax := none, subtotal := none,
          summary := none, line_items := some (Json.arr []),
          error := none, ai_used := some false }

/-- The orchestrator with the source's own fallback extractors plugged in. -/
def extract_invoice_data (ocr : OcrOutcome) (ai : String → Option AiRecord) :
    ExtractionResult :=
  extract_invoice_data_gen ocr ai extract_vendor_nlp extract_date extract_total

/-!
Auxiliary definitions used only to state the claims.
-/

/-- Substring test: does `needle` occur contiguously in `hay`? -/
def infixOfB : List Char → List Char → Bool
  | needle, [] => needle.isEmpty
  | needle, c :: rest => needle.isPrefixOf (c :: rest) || infixOfB needle rest

/-- A field value that is either absent or a non-empty string without
leading or trailing whitespace (the spec's field invariant). -/
def trimmedNonEmptyB (o : Option String) : Bool :=
  match o with
  | none => true
  | some s => !s.data.isEmpty && (pyTrim s.data == s.data)

/-- An error value of the shape `OCR failed: <detail>`. -/
def isOcrFailedMsg (o : Option String) : Bool :=
  match o with
  | some s => ("OCR failed: ").data.isPrefixOf s.data
  | none => false

/-- The line list `extract_vendor_nlp` works on:
`text.strip().split('\n')`. -/
def vendorLines (text : String) : List (List Char) :=
  splitNL (pyTrim text.data)

/-- The cleaned form strategy 2 of `extract_vendor_nlp` would return for a
line: strip, drop the characters outside `[\w\s&.-]`, strip again. -/
def cleanLine (line : List Char) : List Char :=
  pyTrim ((pyTrim line).filter keepChar)

/-- Statement-side rendering of the spec's `extract_date` strategy: the
keyword-anchored pattern first, then the ISO, dotted, slash and dash
numeric forms, then the two named-month forms, each scanned
case-insensitively left to right, the first match returned verbatim, and
`null` when nothing matches. -/
def extract_date_spec (text : String) : Option String :=
  let cs := text.data
  let fuel := cs.length + 1
  match searchM (fun _ s => dateP7MatchAt fuel s) none cs with
  | some g => some (String.mk g)
  | none =>
    match searchM dateIsoMatchAt none cs with
    | some g => some (String.mk g)
    | none =>
      match searchM (dateSepMatchAt '.') none cs with
      | some g => some (String.mk g)
      | none =>
        match searchM (dateSepMatchAt '/') none cs with
        | some g => some (String.mk g)
        | none =>
          match searchM (dateSepMatchAt '-') none cs with
          | some g => some (String.mk g)
          | none =>
            match searchM (dateMonthDayMatchAt fuel) none cs with
            | some g => some (String.mk g)
            | none =>
              match searchM (dateDayMonthMatchAt fuel) none cs with
              | some g => some (String.mk g)
              | none => none

/-- A generated text for the adapter that is not valid JSON. -/
def c6BadText : String := "not json"

/-- A well-shaped Gemini response whose generated text is `c6BadText`. -/
def c6BadBody : Json :=
  Json.obj
    [ ("candidates",
       Json.arr
         [ Json.obj
             [ ("content",
                Json.obj
                  [ ("parts",
                     Json.arr [Json.obj [("text", Json.str c6BadText)]]) ]) ] ]) ]

/-- The fenced generated text of the spec's adapter example. -/
def c9Fenced : String :=
  "```json\n\x7b\"vendor\":\"Acme\",\"date\":\"01/01/2024\",\"total\":\"$10.00\",\"line_items\":[]\x7d\n```"

/-- A well-shaped Gemini response whose generated text is `c9Fenced`. -/
def c9Body : Json :=
  Json.obj
    [ ("candidates",
       Json.arr
         [ Json.obj
             [ ("content",
                Json.obj
                  [ ("parts",
                     Json.arr [Json.obj [("text", Json.str c9Fenced)]]) ]) ] ]) ]

/-!
Predicates about matchers, used by the lemmas below.
-/

/-- A matcher that can only answer through its continuation, applied at a
suffix of the input: if the continuation fails on every suffix, the matcher
fails.  Every pattern combinator has this property. -/
def KStops {β : Type} (m : MK β) : Prop :=
  ∀ acc s k, (∀ a2 s2, s2 <:+ s → k a2 s2 = none) → m acc s k = none

/-- On success, the matcher consumed some `ext` (in text order) with at
least `lo` characters, all satisfying `S`, prepended its reverse to the
accumulator, and answered through the continuation at a suffix. -/
def MShape {β : Type} (S : Char → Bool) (lo : Nat) (m : MK β) : Prop :=
  ∀ acc s k r, m acc s k = some r →
    ∃ (e2 : List Char) (s2 : List Char), k (e2.reverse ++ acc) s2 = some r ∧
      s2 <:+ s ∧ lo ≤ e2.length ∧ ∀ c ∈ e2, S c = true

/-- On success, the first character the matcher consumed satisfies `F`. -/
def MFirst {β : Type} (F : Char → Bool) (m : MK β) : Prop :=
  ∀ acc s k r, m acc s k = some r →
    ∃ (c : Char) (e2 : List Char) (s2 : List Char),
      k ((c :: e2).reverse ++ acc) s2 = some r ∧ s2 <:+ s ∧ F c = true

/-- On success, the last character the matcher consumed satisfies `L`. -/
def MLast {β : Type} (L : Char → Bool) (m : MK β) : Prop :=
  ∀ acc s k r, m acc s k = some r →
    ∃ (e2 : List Char) (c : Char) (s2 : List Char),
      k ((e2 ++ [c]).reverse ++ acc) s2 = some r ∧ s2 <:+ s ∧ L c = true

/-- Deterministic run: on this input the greedy strategy's first
continuation call is at accumulator `a2` and remaining input `s2`, so
whenever the continuation succeeds there the matcher returns exactly that
value. -/
def DetRun {β : Type} (m : MK β) (acc s a2 s2 : List Char) : Prop :=
  ∀ k, (k a2 s2).isSome = true → m acc s k = k a2 s2

/-!
Theorems settling the claims.
-/

/-- Claim C1, counterexample: on the spec's own example input the fuzzy
Vendor Matcher does not return `"Amazon"`; the function body is a deprecated
stub. -/
theorem c1_counterexample :
    extract_vendor "AMZN Amazon Web Services invoice" ["Amazon"] ≠
      some "Amazon" := by
  simp [extract_vendor]

/-- Claim C1, amended: `extract_vendor` is a deprecated stub that returns
null for every text and every known-vendor list; no similarity score is
computed and no candidate is ever returned. -/
theorem c1_amended (text : String) (known_vendors : List String) :
    extract_vendor text known_vendors = none := rfl

/-- Claim C10, counterexample: for the line `Subtotal: $9.99` the returned
keyword-anchored match is the verbatim substring `total: $9.99` of
`Subtotal`, not the capitalized `Total: $9.99` of the claim's example. -/
theorem c10_counterexample :
    extract_total "Subtotal: $9.99" ≠ some "Total: $9.99" := by
  decide

/-- Claim C10, amended: the keyword regex has no word boundary, so on a text
whose only keyword occurrence is the substring `total` inside `Subtotal`,
`extract_total` returns the keyword-anchored match beginning inside that
word, verbatim (`total: $9.99`), rather than the largest-amount fallback
(which would be `$9.99`). -/
theorem c10_amended :
    extract_total "Subtotal: $9.99" = some "total: $9.99" := by
  decide

/-- Claim C3, counterexample: a text containing `Total: $1,234.56` on which
`extract_total` returns a string not containing `$1,234.56`, because an
earlier keyword occurrence produces the leftmost match. -/
theorem c3_counterexample :
    infixOfB ("Total: $1,234.56").data ("total 1 Total: $1,234.56").data = true ∧
    extract_total "total 1 Total: $1,234.56" = some "total 1" ∧
    infixOfB ("$1,234.56").data ("total 1").data = false := by
  refine ⟨by decide, by decide, by decide⟩

/-- Claim C4, counterexample: `extract_vendor_nlp` can return a string of
three spaces, which is neither null nor a non-empty trimmed string: the
label strategy strips punctuation after trimming, leaving only whitespace. -/
theorem c4_counterexample :
    extract_vendor_nlp "From: ! ! ! !" = some "   " ∧
    trimmedNonEmptyB (extract_vendor_nlp "From: ! ! ! !") = false := by
  refine ⟨by decide, by decide⟩

/-- Claim C8, counterexample: the first line contains `Acme Corp LLC`, but
the label-anchored strategy fires on a later `From:` line first, so the
returned vendor does not contain `Acme Corp LLC`. -/
theorem c8_counterexample :
    infixOfB ("Acme Corp LLC").data
        ((vendorLines "Acme Corp LLC\nFrom: Evil Co").headD []) = true ∧
    extract_vendor_nlp "Acme Corp LLC\nFrom: Evil Co" = some "Evil Co" ∧
    infixOfB ("Acme Corp LLC").data ("Evil Co").data = false := by
  refine ⟨by decide, by decide, by decide⟩

/-- Claim C2: whenever the OCR collaborator raises or returns empty text
(or `None`), the orchestrator returns the `OCR failed: <detail>` error
record, every data field reads as null, `line_items` reads as empty, and
the result is independent of the AI adapter and of the fallback extractors
— none of them is consulted. -/
theorem c2_ocr_failure_short_circuits (ocr : OcrOutcome)
    (h : (∃ e, ocr = OcrOutcome.raised e) ∨ ocr = OcrOutcome.returned none ∨
      ocr = OcrOutcome.returned (some ""))
    (ai ai2 : String → Option AiRecord)
    (vF dF tF vF2 dF2 tF2 : String → Option String) :
    isOcrFailedMsg (extract_invoice_data_gen ocr ai vF dF tF).error = true ∧
    (extract_invoice_data_gen ocr ai vF dF tF).vendor = none ∧
    (extract_invoice_data_gen ocr ai vF dF tF).date = none ∧
    (extract_invoice_data_gen ocr ai vF dF tF).total = none ∧
    (extract_invoice_data_gen ocr ai vF dF tF).invoice_number = none ∧
    (extract_invoice_data_gen ocr ai vF dF tF).tax = none ∧
    (extract_invoice_data_gen ocr ai vF dF tF).subtotal = none ∧
    (extract_invoice_data_gen ocr ai vF dF tF).summary = none ∧
    (extract_invoice_data_gen ocr ai vF dF tF).line_items = none ∧
    extract_invoice_data_gen ocr ai vF dF tF =
      extract_invoice_data_gen ocr ai2 vF2 dF2 tF2 := by
  rcases h with ⟨e, rfl⟩ | rfl | rfl <;>
    simp [extract_invoice_data_gen, ocrErrorResult, isOcrFailedMsg,
      List.isPrefixOf, charEqCI]

/-- Claim C2, witness at a concrete raised OCR exception, with two
observably different AI adapters and extractor sets on either side of the
independence equation. -/
theorem c2_witness :
    isOcrFailedMsg
        (extract_invoice_data_gen (OcrOutcome.raised "boom") (fun _ => none)
          (fun _ => none) (fun _ => none) (fun _ => none)).error = true ∧
    (extract_invoice_data_gen (OcrOutcome.raised "boom") (fun _ => none)
        (fun _ => none) (fun _ => none) (fun _ => none)).vendor = none ∧
    (extract_invoice_data_gen (OcrOutcome.raised "boom") (fun _ => none)
        (fun _ => none) (fun _ => none) (fun _ => none)).date = none ∧
    (extract_invoice_data_gen (OcrOutcome.raised "boom") (fun _ => none)
        (fun _ => none) (fun _ => none) (fun _ => none)).total = none ∧
    (extract_invoice_data_gen (OcrOutcome.raised "boom") (fun _ => none)
        (fun _ => none) (fun _ => none) (fun _ => none)).invoice_number = none ∧
    (extract_invoice_data_gen (OcrOutcome.raised "boom") (fun _ => none)
        (fun _ => none) (fun _ => none) (fun _ => none)).tax = none ∧
    (extract_invoice_data_gen (OcrOutcome.raised "boom") (fun _ => none)
        (fun _ => none) (fun _ => none) (fun _ => none)).subtotal = none ∧
    (extract_invoice_data_gen (OcrOutcome.raised "boom") (fun _ => none)
        (fun _ => none) (fun _ => none) (fun _ => none)).summary = none ∧
    (extract_invoice_data_gen (OcrOutcome.raised "boom") (fun _ => none)
        (fun _ => none) (fun _ => none) (fun _ => none)).line_items = none ∧
    extract_invoice_data_gen (OcrOutcome.raised "boom") (fun _ => none)
        (fun _ => none) (fun _ => none) (fun _ => none) =
      extract_invoice_data_gen (OcrOutcome.raised "boom")
        (fun t => extract_with_ai (some "k") (HttpOutcome.ok 200 c9Body) t)
        extract_vendor_nlp extract_date extract_total :=
  c2_ocr_failure_short_circuits (OcrOutcome.raised "boom")
    (Or.inl ⟨"boom", rfl⟩) _ _ _ _ _ _ _ _

/-- Claim C6: the AI Extraction Adapter is a total function that returns
null when no credential is configured, and null on timeout, on a network
error, on a non-200 status, on a response missing the expected candidate
structure, and on generated text that is not valid JSON after the code
fences are stripped. -/
theorem c6_ai_never_raises (key t msg : String) (http : HttpOutcome)
    (s : Nat) (b bc bg : Json) (gt : String)
    (hs : s ≠ 200)
    (hbc : getCandidateText bc = none)
    (hbg : getCandidateText bg = some gt)
    (hparse : parseJson (stripFences gt).data = none) :
    extract_with_ai none http t = none ∧
    extract_with_ai (some key) HttpOutcome.timeout t = none ∧
    extract_with_ai (some key) (HttpOutcome.netError msg) t = none ∧
    extract_with_ai (some key) (HttpOutcome.ok s b) t = none ∧
    extract_with_ai (some key) (HttpOutcome.ok 200 bc) t = none ∧
    extract_with_ai (some key) (HttpOutcome.ok 200 bg) t = none := by
  refine ⟨rfl, rfl, rfl, ?_, ?_, ?_⟩
  · simp [extract_with_ai, hs]
  · simp [extract_with_ai, hbc]
  · simp [extract_with_ai, hbg, hparse]

/-- Claim C6, witness at concrete failing inputs: status 500, a body with
no candidate structure, and a generated text that is not JSON. -/
theorem c6_witness :
    (500 : Nat) ≠ 200 ∧
    getCandidateText Json.null = none ∧
    getCandidateText c6BadBody = some c6BadText ∧
    parseJson (stripFences c6BadText).data = none ∧
    (extract_with_ai none (HttpOutcome.ok 200 c6BadBody) "t" = none ∧
      extract_with_ai (some "k") HttpOutcome.timeout "t" = none ∧
      extract_with_ai (some "k") (HttpOutcome.netError "refused") "t" = none ∧
      extract_with_ai (some "k") (HttpOutcome.ok 500 Json.null) "t" = none ∧
      extract_with_ai (some "k") (HttpOutcome.ok 200 Json.null) "t" = none ∧
      extract_with_ai (some "k") (HttpOutcome.ok 200 c6BadBody) "t" = none) :=
  ⟨by decide, rfl, rfl, rfl,
    c6_ai_never_raises "k" "t" "refused" (HttpOutcome.ok 200 c6BadBody)
      500 Json.null Json.null c6BadBody c6BadText (by decide) rfl rfl rfl⟩

/-- Claim C9: on the spec's mocked model response, the adapter strips the
markdown code fences, parses the JSON object, and returns a record whose
vendor field is the string `Acme`. -/
theorem c9_fences_stripped :
    stripFences c9Fenced =
      "\x7b\"vendor\":\"Acme\",\"date\":\"01/01/2024\",\"total\":\"$10.00\",\"line_items\":[]\x7d" ∧
    (extract_with_ai (some "key") (HttpOutcome.ok 200 c9Body) "raw ocr text").map
        (fun r => r.vendor) = some (some (Json.str "Acme")) := by
  exact ⟨rfl, rfl⟩

/-- Claim C5: `extract_date` is extensionally the spec's ordered cascade —
keyword-anchored first, then ISO, dotted, slash, dash, and the two
named-month forms, each scanned case-insensitively left to right with the
first match returned verbatim, and null when no pattern matches. -/
theorem c5_date_pattern_order (text : String) :
    extract_date text = extract_date_spec text := by
  rfl

/-!
Structural lemmas about the matcher combinators.
-/

theorem kstops_fail {β : Type} : KStops (failM (β := β)) := by
  intro acc s k _
  rfl

theorem kstops_empty {β : Type} : KStops (emptyM (β := β)) := by
  intro acc s k h
  exact h acc s (List.suffix_refl s)

theorem kstops_cls {β : Type} (p : Char → Bool) : KStops (clsM (β := β) p) := by
  intro acc s k h
  cases s with
  | nil => rfl
  | cons c rest =>
    simp only [clsM]
    by_cases hp : p c = true
    · simp only [hp, if_true]
      exact h (c :: acc) rest ((List.suffix_cons c rest).trans (List.suffix_refl _))
    · simp only [Bool.not_eq_true] at hp
      simp [hp]

theorem kstops_lit {β : Type} (ci : Bool) (pat : List Char) :
    KStops (litM (β := β) ci pat) := by
  induction pat with
  | nil => exact kstops_empty
  | cons p ps ih =>
    intro acc s k h
    cases s with
    | nil => rfl
    | cons c rest =>
      simp only [litM]
      by_cases hc : charEqCI ci p c = true
      · simp only [hc, if_true]
        exact ih (c :: acc) rest k
          (fun a2 s2 hs2 => h a2 s2 (hs2.trans (List.suffix_cons c rest)))
      · simp only [Bool.not_eq_true] at hc
        simp [hc]

theorem kstops_seq {β : Type} {m1 m2 : MK β} (h1 : KStops m1) (h2 : KStops m2) :
    KStops (seqM m1 m2) := by
  intro acc s k h
  exact h1 acc s _ (fun a2 s2 hs2 =>
    h2 a2 s2 k (fun a3 s3 hs3 => h a3 s3 (hs3.trans hs2)))

theorem kstops_alt {β : Type} {m1 m2 : MK β} (h1 : KStops m1) (h2 : KStops m2) :
    KStops (altM m1 m2) := by
  intro acc s k h
  simp only [altM, h1 acc s k h, h2 acc s k h, Option.none_orElse]

theorem kstops_opt {β : Type} {m : MK β} (h1 : KStops m) : KStops (optM m) := by
  intro acc s k h
  simp only [optM, h1 acc s k h, h acc s (List.suffix_refl s), Option.none_orElse]

theorem kstops_star {β : Type} {m : MK β} (h1 : KStops m) (fuel : Nat) :
    KStops (starM m fuel) := by
  induction fuel with
  | zero => exact kstops_empty
  | succ n ih =>
    intro acc s k h
    simp only [starM]
    have hbody : m acc s (fun a s2 => starM m n a s2 k) = none :=
      h1 acc s _ (fun a2 s2 hs2 =>
        ih a2 s2 k (fun a3 s3 hs3 => h a3 s3 (hs3.trans hs2)))
    simp only [hbody, h acc s (List.suffix_refl s), Option.none_orElse]

theorem kstops_atmost {β : Type} {m : MK β} (h1 : KStops m) (n : Nat) :
    KStops (repAtMostM m n) := by
  induction n with
  | zero => exact kstops_empty
  | succ n ih =>
    intro acc s k h
    simp only [repAtMostM]
    have hbody : m acc s (fun a s2 => repAtMostM m n a s2 k) = none :=
      h1 acc s _ (fun a2 s2 hs2 =>
        ih a2 s2 k (fun a3 s3 hs3 => h a3 s3 (hs3.trans hs2)))
    simp only [hbody, h acc s (List.suffix_refl s), Option.none_orElse]

theorem kstops_exact {β : Type} {m : MK β} (h1 : KStops m) (n : Nat) :
    KStops (repExactM m n) := by
  induction n with
  | zero => exact kstops_empty
  | succ n ih => exact kstops_seq h1 ih

theorem kstops_plus {β : Type} {m : MK β} (h1 : KStops m) (fuel : Nat) :
    KStops (plusM m fuel) :=
  kstops_seq h1 (kstops_star h1 fuel)

theorem kstops_range {β : Type} {m : MK β} (h1 : KStops m) (lo extra : Nat) :
    KStops (repRangeM m lo extra) :=
  kstops_seq (kstops_exact h1 lo) (kstops_atmost h1 extra)

theorem kstops_altList {β : Type} {ms : List (MK β)}
    (h : ∀ m ∈ ms, KStops m) : KStops (altList ms) := by
  induction ms with
  | nil => exact kstops_fail
  | cons m ms ih =>
    exact kstops_alt (h m (List.mem_cons_self m ms))
      (ih (fun m2 hm2 => h m2 (List.mem_cons_of_mem m hm2)))

/-- If a pattern fails at every position, `re.search` fails. -/
theorem searchM_none {β : Type} (matchAt : Option Char → List Char → Option β) :
    ∀ (s : List Char) (prev : Option Char),
      (∀ prev2 s2, s2 <:+ s → matchAt prev2 s2 = none) →
      searchM matchAt prev s = none := by
  intro s
  induction s with
  | nil =>
    intro prev h
    simp only [searchM, h prev [] (List.suffix_refl _), Option.none_orElse]
  | cons c rest ih =>
    intro prev h
    simp only [searchM, h prev (c :: rest) (List.suffix_refl _),
      Option.none_orElse]
    exact ih (some c) (fun prev2 s2 hs2 => h prev2 s2 (hs2.trans (List.suffix_cons c rest)))

/-!
Digit-free texts (claim C7): both patterns of `extract_total` require at
least one digit, so they fail everywhere on a digit-free text.
-/

theorem clsM_digit_none {β : Type} {s : List Char}
    (h : ∀ c ∈ s, c.isDigit = false) (acc : List Char)
    (k : List Char → List Char → Option β) :
    clsM Char.isDigit acc s k = none := by
  cases s with
  | nil => rfl
  | cons c rest =>
    simp [clsM, h c (List.mem_cons_self c rest)]

theorem amount1_unfold {β : Type} (fuel : Nat) (acc s : List Char)
    (k : List Char → List Char → Option β) :
    amount1 fuel acc s k =
      clsM Char.isDigit acc s (fun a s2 =>
        (repAtMostM (clsM Char.isDigit) 2) a s2 (fun a3 s3 =>
          (seqM (starM grp3 fuel) (optM dec2)) a3 s3 k)) := rfl

theorem amount2_unfold {β : Type} (fuel : Nat) (acc s : List Char)
    (k : List Char → List Char → Option β) :
    amount2 fuel acc s k =
      clsM Char.isDigit acc s (fun a s2 =>
        (repAtMostM (clsM Char.isDigit) 2) a s2 (fun a3 s3 =>
          (seqM (starM (seqM (clsM (fun c => c == ',')) (repExactM (clsM Char.isDigit) 3)) fuel)
            (optM (seqM (clsM (fun c => c == '.')) (repExactM (clsM Char.isDigit) 2)))) a3 s3 k)) := rfl

theorem amount1_none {β : Type} {s : List Char} (fuel : Nat)
    (h : ∀ c ∈ s, c.isDigit = false) (acc : List Char)
    (k : List Char → List Char → Option β) :
    amount1 fuel acc s k = none := by
  rw [amount1_unfold]
  exact clsM_digit_none h acc _

theorem amount2_none {β : Type} {s : List Char} (fuel : Nat)
    (h : ∀ c ∈ s, c.isDigit = false) (acc : List Char)
    (k : List Char → List Char → Option β) :
    amount2 fuel acc s k = none := by
  rw [amount2_unfold]
  exact clsM_digit_none h acc _

theorem kstops_totalP1Pre {β : Type} (fuel : Nat) :
    KStops (totalP1Pre (β := β) fuel) := by
  refine kstops_seq ?_ (kstops_seq (kstops_star (kstops_cls _) fuel)
    (kstops_seq (kstops_opt (kstops_cls _)) (kstops_star (kstops_cls _) fuel)))
  refine kstops_altList ?_
  intro m hm
  simp only [totalKw, List.mem_cons, List.not_mem_nil, or_false] at hm
  rcases hm with rfl | rfl | rfl | rfl | rfl
  · exact kstops_lit _ _
  · exact kstops_seq (kstops_lit _ _) (kstops_seq (kstops_plus (kstops_cls _) fuel) (kstops_lit _ _))
  · exact kstops_seq (kstops_lit _ _) (kstops_seq (kstops_plus (kstops_cls _) fuel) (kstops_lit _ _))
  · exact kstops_seq (kstops_lit _ _) (kstops_seq (kstops_plus (kstops_cls _) fuel) (kstops_lit _ _))
  · exact kstops_seq (kstops_lit _ _) (kstops_seq (kstops_plus (kstops_cls _) fuel) (kstops_lit _ _))

theorem totalP1MatchAt_none {s : List Char} (fuel : Nat)
    (h : ∀ c ∈ s, c.isDigit = false) : totalP1MatchAt fuel s = none := by
  refine kstops_totalP1Pre fuel [] s _ ?_
  intro a2 s2 hs2
  exact amount1_none fuel (fun c hc => h c (hs2.sublist.subset hc)) [] _

theorem totalP2MatchAt_none {s : List Char} (fuel : Nat)
    (h : ∀ c ∈ s, c.isDigit = false) : totalP2MatchAt fuel s = none := by
  refine kstops_seq (kstops_cls _) (kstops_star (kstops_cls _) fuel) [] s _ ?_
  intro a2 s2 hs2
  exact amount2_none fuel (fun c hc => h c (hs2.sublist.subset hc)) [] _

theorem findAllP2_nil {fuel : Nat} :
    ∀ (n : Nat) (s : List Char), (∀ c ∈ s, c.isDigit = false) →
      findAllP2 fuel n s = [] := by
  intro n
  induction n with
  | zero => intro s _; rfl
  | succ n ih =>
    intro s h
    cases s with
    | nil => rfl
    | cons c rest =>
      simp only [findAllP2, totalP2MatchAt_none fuel h]
      exact ih rest (fun c2 hc2 => h c2 (List.mem_cons_of_mem c hc2))

/-- Claim C7: on a text with no currency-shaped substring, `extract_total`
returns null.  Under the source's own amount grammar any single digit is
already an amount shape, so the hypothesis is rendered as the absence of
digits. -/
theorem c7_no_digits_no_total (text : String)
    (h : ∀ c ∈ text.data, c.isDigit = false) :
    extract_total text = none := by
  have h1 : searchM (fun _ s => totalP1MatchAt (text.data.length + 1) s)
      none text.data = none := by
    refine searchM_none _ text.data none ?_
    intro prev2 s2 hs2
    exact totalP1MatchAt_none _ (fun c hc => h c (hs2.sublist.subset hc))
  have h2 : findAllP2 (text.data.length + 1) (text.data.length + 1) text.data = [] :=
    findAllP2_nil _ text.data h
  simp only [extract_total, h1, h2]

/-- Claim C7, witness on a concrete digit-free text. -/
theorem c7_witness :
    (∀ c ∈ ("no amounts appear here, only words").data, c.isDigit = false) ∧
    extract_total "no amounts appear here, only words" = none :=
  ⟨by decide, c7_no_digits_no_total _ (by decide)⟩

/-!
Decomposition lemmas: what a successful matcher run consumed.
-/

theorem orElse_some_cases {α : Type} {a b : Option α} {r : α}
    (h : (a <|> b) = some r) : a = some r ∨ (a = none ∧ b = some r) := by
  cases a <;> simp_all

theorem mshape_empty {β : Type} {S : Char → Bool} :
    MShape (β := β) S 0 emptyM := by
  intro acc s k r h
  exact ⟨[], s, h, List.suffix_refl s, Nat.le_refl 0, by simp⟩

theorem mshape_cls {β : Type} {p : Char → Bool} : MShape (β := β) p 1 (clsM p) := by
  intro acc s k r h
  cases s with
  | nil => exact absurd h (by simp [clsM])
  | cons c rest =>
    simp only [clsM] at h
    by_cases hp : p c = true
    · rw [if_pos hp] at h
      exact ⟨[c], rest, h, List.suffix_cons c rest, Nat.le_refl 1,
        by simpa using hp⟩
    · simp only [Bool.not_eq_true] at hp
      simp [hp] at h

theorem mshape_lit {β : Type} {S : Char → Bool} (ci : Bool) (pat : List Char)
    (hS : ∀ p ∈ pat, ∀ c, charEqCI ci p c = true → S c = true) :
    MShape (β := β) S pat.length (litM ci pat) := by
  induction pat with
  | nil => exact mshape_empty
  | cons p ps ih =>
    intro acc s k r h
    cases s with
    | nil => exact absurd h (by simp [litM])
    | cons c rest =>
      simp only [litM] at h
      by_cases hc : charEqCI ci p c = true
      · rw [if_pos hc] at h
        obtain ⟨e2, s2, hk, hs2, hlen, hchars⟩ :=
          ih (fun q hq => hS q (List.mem_cons_of_mem p hq)) (c :: acc) rest k r h
        refine ⟨c :: e2, s2, ?_, hs2.trans (List.suffix_cons c rest), ?_, ?_⟩
        · simpa [List.append_assoc] using hk
        · simpa using Nat.succ_le_succ hlen
        · intro x hx
          rcases List.mem_cons.mp hx with rfl | hx2
          · exact hS p (List.mem_cons_self p ps) x hc
          · exact hchars x hx2
      · simp only [Bool.not_eq_true] at hc
        simp [hc] at h

theorem mshape_seq {β : Type} {S : Char → Bool} {l1 l2 : Nat} {m1 m2 : MK β}
    (h1 : MShape S l1 m1) (h2 : MShape S l2 m2) :
    MShape S (l1 + l2) (seqM m1 m2) := by
  intro acc s k r h
  obtain ⟨e1, s1, hk1, hs1, hl1, hc1⟩ := h1 acc s _ r h
  obtain ⟨e2, s2, hk2, hs2, hl2, hc2⟩ := h2 (e1.reverse ++ acc) s1 k r hk1
  refine ⟨e1 ++ e2, s2, ?_, hs2.trans hs1, ?_, ?_⟩
  · simpa [List.append_assoc] using hk2
  · simpa using Nat.add_le_add hl1 hl2
  · intro x hx
    rcases List.mem_append.mp hx with hx1 | hx2
    · exact hc1 x hx1
    · exact hc2 x hx2

theorem mshape_weaken {β : Type} {S : Char → Bool} {lo lo2 : Nat} {m : MK β}
    (hle : lo2 ≤ lo) (h : MShape S lo m) : MShape S lo2 m := by
  intro acc s k r hm
  obtain ⟨e, s2, hk, hs, hl, hc⟩ := h acc s k r hm
  exact ⟨e, s2, hk, hs, hle.trans hl, hc⟩

theorem mshape_mono {β : Type} {S S2 : Char → Bool} {lo : Nat} {m : MK β}
    (himp : ∀ c, S c = true → S2 c = true) (h : MShape S lo m) :
    MShape S2 lo m := by
  intro acc s k r hm
  obtain ⟨e, s2, hk, hs, hl, hc⟩ := h acc s k r hm
  exact ⟨e, s2, hk, hs, hl, fun c hcm => himp c (hc c hcm)⟩

theorem mshape_alt {β : Type} {S : Char → Bool} {lo : Nat} {m1 m2 : MK β}
    (h1 : MShape S lo m1) (h2 : MShape S lo m2) :
    MShape S lo (altM m1 m2) := by
  intro acc s k r h
  rcases orElse_some_cases h with h' | ⟨_, h'⟩
  · exact h1 acc s k r h'
  · exact h2 acc s k r h'

theorem mshape_opt {β : Type} {S : Char → Bool} {lo : Nat} {m : MK β}
    (h1 : MShape S lo m) : MShape S 0 (optM m) := by
  intro acc s k r h
  rcases orElse_some_cases h with h' | ⟨_, h'⟩
  · exact mshape_weaken (Nat.zero_le lo) h1 acc s k r h'
  · exact ⟨[], s, h', List.suffix_refl s, Nat.le_refl 0, by simp⟩

theorem mshape_star {β : Type} {S : Char → Bool} {lo : Nat} {m : MK β}
    (h1 : MShape S lo m) (fuel : Nat) : MShape S 0 (starM m fuel) := by
  induction fuel with
  | zero => exact mshape_empty
  | succ n ih =>
    intro acc s k r h
    rcases orElse_some_cases h with h' | ⟨_, h'⟩
    · obtain ⟨e1, s1, hk1, hs1, _, hc1⟩ := h1 acc s _ r h'
      obtain ⟨e2, s2, hk2, hs2, _, hc2⟩ := ih (e1.reverse ++ acc) s1 k r hk1
      refine ⟨e1 ++ e2, s2, ?_, hs2.trans hs1, Nat.zero_le _, ?_⟩
      · simpa [List.append_assoc] using hk2
      · intro x hx
        rcases List.mem_append.mp hx with hx1 | hx2
        · exact hc1 x hx1
        · exact hc2 x hx2
    · exact ⟨[], s, h', List.suffix_refl s, Nat.le_refl 0, by simp⟩

theorem mshape_atmost {β : Type} {S : Char → Bool} {lo : Nat} {m : MK β}
    (h1 : MShape S lo m) (n : Nat) : MShape S 0 (repAtMostM m n) := by
  induction n with
  | zero => exact mshape_empty
  | succ n ih =>
    intro acc s k r h
    rcases orElse_some_cases h with h' | ⟨_, h'⟩
    · obtain ⟨e1, s1, hk1, hs1, _, hc1⟩ := h1 acc s _ r h'
      obtain ⟨e2, s2, hk2, hs2, _, hc2⟩ := ih (e1.reverse ++ acc) s1 k r hk1
      refine ⟨e1 ++ e2, s2, ?_, hs2.trans hs1, Nat.zero_le _, ?_⟩
      · simpa [List.append_assoc] using hk2
      · intro x hx
        rcases List.mem_append.mp hx with hx1 | hx2
        · exact hc1 x hx1
        · exact hc2 x hx2
    · exact ⟨[], s, h', List.suffix_refl s, Nat.le_refl 0, by simp⟩

theorem mshape_exact {β : Type} {S : Char → Bool} {lo : Nat} {m : MK β}
    (h1 : MShape S lo m) (n : Nat) : MShape S (n * lo) (repExactM m n) := by
  induction n with
  | zero => simpa using (mshape_empty (β := β) (S := S))
  | succ n ih =>
    have := mshape_seq h1 ih
    have harith : (n + 1) * lo = lo + n * lo := by ring
    rw [harith]
    exact this

theorem mshape_plus {β : Type} {S : Char → Bool} {lo : Nat} {m : MK β}
    (h1 : MShape S lo m) (fuel : Nat) : MShape S lo (plusM m fuel) := by
  have := mshape_seq h1 (mshape_star h1 fuel)
  simpa using this

theorem mshape_range {β : Type} {S : Char → Bool} {l lo extra : Nat} {m : MK β}
    (h1 : MShape S l m) : MShape S (lo * l) (repRangeM m lo extra) := by
  have := mshape_seq (mshape_exact h1 lo) (mshape_atmost h1 extra)
  simpa using this

theorem mshape_altList {β : Type} {S : Char → Bool} {lo : Nat} {ms : List (MK β)}
    (h : ∀ m ∈ ms, MShape S lo m) : MShape S lo (altList ms) := by
  induction ms with
  | nil =>
    intro acc s k r hm
    exact absurd hm (by simp [altList, failM])
  | cons m ms ih =>
    exact mshape_alt (h m (List.mem_cons_self m ms))
      (ih (fun m2 hm2 => h m2 (List.mem_cons_of_mem m hm2)))

/-- First consumed character, from a shape with at least one character. -/
theorem mfirst_of_mshape {β : Type} {S : Char → Bool} {lo : Nat} {m : MK β}
    (h : MShape S lo m) (hlo : 1 ≤ lo) : MFirst S m := by
  intro acc s k r hm
  obtain ⟨e, s2, hk, hs, hl, hc⟩ := h acc s k r hm
  cases e with
  | nil => simp at hl; omega
  | cons c e2 =>
    exact ⟨c, e2, s2, hk, hs, hc c (List.mem_cons_self c e2)⟩

/-- Last consumed character, from a shape with at least one character. -/
theorem mlast_of_mshape {β : Type} {S : Char → Bool} {lo : Nat} {m : MK β}
    (h : MShape S lo m) (hlo : 1 ≤ lo) : MLast S m := by
  intro acc s k r hm
  obtain ⟨e, s2, hk, hs, hl, hc⟩ := h acc s k r hm
  have hne : e ≠ [] := by
    intro he
    rw [he] at hl
    simp at hl
    omega
  obtain ⟨e2, c, rfl⟩ : ∃ e2 c, e = e2 ++ [c] := by
    rcases List.eq_nil_or_concat e with rfl | ⟨e2, c, hcat⟩
    · exact absurd rfl hne
    · exact ⟨e2, c, by simpa [List.concat_eq_append] using hcat⟩
  exact ⟨e2, c, s2, hk, hs, hc c (by simp)⟩

/-- Sequencing preserves the first-character fact. -/
theorem mfirst_seq {β : Type} {F : Char → Bool} {m1 m2 : MK β}
    (h1 : MFirst F m1) (h2 : MShape (fun _ => true) 0 m2) :
    MFirst F (seqM m1 m2) := by
  intro acc s k r h
  obtain ⟨c, e1, s1, hk1, hs1, hF⟩ := h1 acc s _ r h
  obtain ⟨e2, s2, hk2, hs2, _, _⟩ := h2 ((c :: e1).reverse ++ acc) s1 k r hk1
  refine ⟨c, e1 ++ e2, s2, ?_, hs2.trans hs1, hF⟩
  have : (c :: (e1 ++ e2)).reverse ++ acc =
      e2.reverse ++ ((c :: e1).reverse ++ acc) := by
    simp [List.append_assoc]
  rw [this]
  exact hk2

/-- Sequencing preserves the last-character fact. -/
theorem mlast_seq {β : Type} {L : Char → Bool} {m1 m2 : MK β}
    (h1 : MShape (fun _ => true) 0 m1) (h2 : MLast L m2) :
    MLast L (seqM m1 m2) := by
  intro acc s k r h
  obtain ⟨e1, s1, hk1, hs1, _, _⟩ := h1 acc s _ r h
  obtain ⟨e2, c, s2, hk2, hs2, hL⟩ := h2 (e1.reverse ++ acc) s1 k r hk1
  refine ⟨e1 ++ e2, c, s2, ?_, hs2.trans hs1, hL⟩
  have : (e1 ++ e2 ++ [c]).reverse ++ acc =
      (e2 ++ [c]).reverse ++ (e1.reverse ++ acc) := by
    simp [List.append_assoc]
  rw [this]
  exact hk2

theorem mfirst_alt {β : Type} {F : Char → Bool} {m1 m2 : MK β}
    (h1 : MFirst F m1) (h2 : MFirst F m2) : MFirst F (altM m1 m2) := by
  intro acc s k r h
  rcases orElse_some_cases h with h' | ⟨_, h'⟩
  · exact h1 acc s k r h'
  · exact h2 acc s k r h'

theorem mfirst_altList {β : Type} {F : Char → Bool} {ms : List (MK β)}
    (h : ∀ m ∈ ms, MFirst F m) : MFirst F (altList ms) := by
  induction ms with
  | nil =>
    intro acc s k r hm
    exact absurd hm (by simp [altList, failM])
  | cons m ms ih =>
    exact mfirst_alt (h m (List.mem_cons_self m ms))
      (ih (fun m2 hm2 => h m2 (List.mem_cons_of_mem m hm2)))

theorem mlast_alt {β : Type} {L : Char → Bool} {m1 m2 : MK β}
    (h1 : MLast L m1) (h2 : MLast L m2) : MLast L (altM m1 m2) := by
  intro acc s k r h
  rcases orElse_some_cases h with h' | ⟨_, h'⟩
  · exact h1 acc s k r h'
  · exact h2 acc s k r h'

/-! Trivial shapes: every combinator admits the decomposition with no
constraint on the consumed characters. -/

theorem many_empty {β : Type} : MShape (β := β) (fun _ => true) 0 emptyM :=
  mshape_empty

theorem many_cls {β : Type} {p : Char → Bool} :
    MShape (β := β) (fun _ => true) 0 (clsM p) :=
  mshape_weaken (Nat.zero_le 1) (mshape_mono (fun _ _ => rfl) mshape_cls)

theorem many_lit {β : Type} {ci : Bool} {pat : List Char} :
    MShape (β := β) (fun _ => true) 0 (litM ci pat) :=
  mshape_weaken (Nat.zero_le _) (mshape_lit ci pat (fun _ _ _ _ => rfl))

theorem many_seq {β : Type} {m1 m2 : MK β}
    (h1 : MShape (fun _ => true) 0 m1) (h2 : MShape (fun _ => true) 0 m2) :
    MShape (fun _ => true) 0 (seqM m1 m2) := by
  simpa using mshape_seq h1 h2

theorem many_alt {β : Type} {m1 m2 : MK β}
    (h1 : MShape (fun _ => true) 0 m1) (h2 : MShape (fun _ => true) 0 m2) :
    MShape (fun _ => true) 0 (altM m1 m2) :=
  mshape_alt h1 h2

theorem many_opt {β : Type} {m : MK β} (h : MShape (fun _ => true) 0 m) :
    MShape (fun _ => true) 0 (optM m) :=
  mshape_opt h

theorem many_star {β : Type} {m : MK β} (h : MShape (fun _ => true) 0 m)
    (fuel : Nat) : MShape (fun _ => true) 0 (starM m fuel) :=
  mshape_star h fuel

theorem many_atmost {β : Type} {m : MK β} (h : MShape (fun _ => true) 0 m)
    (n : Nat) : MShape (fun _ => true) 0 (repAtMostM m n) :=
  mshape_atmost h n

theorem many_exact {β : Type} {m : MK β} (h : MShape (fun _ => true) 0 m)
    (n : Nat) : MShape (fun _ => true) 0 (repExactM m n) := by
  simpa using mshape_exact h n

theorem many_plus {β : Type} {m : MK β} (h : MShape (fun _ => true) 0 m)
    (fuel : Nat) : MShape (fun _ => true) 0 (plusM m fuel) := by
  simpa using mshape_seq h (mshape_star h fuel)

theorem many_range {β : Type} {m : MK β} (h : MShape (fun _ => true) 0 m)
    (lo extra : Nat) : MShape (fun _ => true) 0 (repRangeM m lo extra) := by
  simpa using @mshape_range _ _ _ lo extra _ h

theorem many_altList {β : Type} {ms : List (MK β)}
    (h : ∀ m ∈ ms, MShape (fun _ => true) 0 m) :
    MShape (fun _ => true) 0 (altList ms) :=
  mshape_altList h

/-! Character facts connecting the source's classes to whitespace. -/

theorem pySpace_elim {c : Char} (h : pySpace c = true) :
    c = ' ' ∨ c = '\t' ∨ c = '\n' ∨ c = '\r' ∨ c = '\x0b' ∨ c = '\x0c' := by
  simp only [pySpace, Bool.or_eq_true, beq_iff_eq] at h
  tauto

theorem isDigit_nonspace {c : Char} (h : c.isDigit = true) : pySpace c = false := by
  by_contra hc
  rw [Bool.not_eq_false] at hc
  rcases pySpace_elim hc with rfl | rfl | rfl | rfl | rfl | rfl <;>
    exact absurd h (by decide)

theorem isDateSep_nonspace {c : Char} (h : isDateSep c = true) :
    pySpace c = false := by
  simp only [isDateSep, Bool.or_eq_true, beq_iff_eq] at h
  rcases h with (rfl | rfl) | rfl <;> decide

theorem charEqCI_nonspace {p : Char}
    (hp : charEqCI true p ' ' = false ∧ charEqCI true p '\t' = false ∧
      charEqCI true p '\n' = false ∧ charEqCI true p '\r' = false ∧
      charEqCI true p '\x0b' = false ∧ charEqCI true p '\x0c' = false) :
    ∀ c, charEqCI true p c = true → pySpace c = false := by
  intro c h
  by_contra hc
  rw [Bool.not_eq_false] at hc
  obtain ⟨h1, h2, h3, h4, h5, h6⟩ := hp
  rcases pySpace_elim hc with rfl | rfl | rfl | rfl | rfl | rfl <;> simp_all

/-- Case-insensitive literal whose pattern characters can never compare
equal to a whitespace character consumes no whitespace. -/
theorem mshape_lit_nonspaceCI {β : Type} (pat : List Char)
    (hp : pat.all (fun p => !(charEqCI true p ' ') && !(charEqCI true p '\t') &&
      !(charEqCI true p '\n') && !(charEqCI true p '\r') &&
      !(charEqCI true p '\x0b') && !(charEqCI true p '\x0c')) = true) :
    MShape (β := β) (fun c => !(pySpace c)) pat.length (litM true pat) := by
  refine mshape_lit true pat ?_
  intro p hpm c hc
  have hp2 := List.all_eq_true.mp hp p hpm
  simp only [Bool.and_eq_true, Bool.not_eq_true'] at hp2
  have : pySpace c = false :=
    charEqCI_nonspace ⟨hp2.1.1.1.1.1, hp2.1.1.1.1.2, hp2.1.1.1.2, hp2.1.1.2,
      hp2.1.2, hp2.2⟩ c hc
  simp [this]

/-! Facts about `pyTrim`. -/

theorem head?_dropWhile_false {p : Char → Bool} {l : List Char} {c : Char}
    (h : (l.dropWhile p).head? = some c) : p c = false := by
  induction l with
  | nil => simp at h
  | cons a t ih =>
    rw [List.dropWhile_cons] at h
    by_cases hp : p a = true
    · rw [if_pos hp] at h
      exact ih h
    · rw [Bool.not_eq_true] at hp
      rw [if_neg (by simp [hp])] at h
      simp at h
      exact h ▸ hp

theorem head?_of_isPre {l1 l2 : List Char} (h : l1 <+: l2) (hne : l1 ≠ []) :
    l2.head? = l1.head? := by
  obtain ⟨t, rfl⟩ := h
  exact List.head?_append_of_ne_nil _ hne

theorem pyTrim_eq_self_of_ends {l : List Char}
    (hh : ∀ c, l.head? = some c → pySpace c = false)
    (hl : ∀ c, l.getLast? = some c → pySpace c = false) :
    pyTrim l = l := by
  cases l with
  | nil => rfl
  | cons c t =>
    have h1 : pySpace c = false := hh c rfl
    have hdw : (c :: t).dropWhile pySpace = c :: t := by
      rw [List.dropWhile_cons, if_neg (by simp [h1])]
    rw [pyTrim, hdw, List.rdropWhile_eq_self_iff]
    intro hne
    have hgl : (c :: t).getLast? = some ((c :: t).getLast hne) :=
      List.getLast?_eq_getLast _ hne
    simp [hl _ hgl]

theorem pyTrim_ne_nil_of_head {l : List Char} {c : Char}
    (hhead : l.head? = some c) (hc : pySpace c = false) : pyTrim l ≠ [] := by
  cases l with
  | nil => simp at hhead
  | cons a t =>
    have hac : a = c := by simpa using hhead
    have hca : pySpace a = false := by rw [hac]; exact hc
    have hdw : (a :: t).dropWhile pySpace = a :: t := by
      rw [List.dropWhile_cons, if_neg (by simp [hca])]
    rw [pyTrim, hdw]
    intro hnil
    rw [List.rdropWhile_eq_nil_iff] at hnil
    have h2 := hnil a (List.mem_cons_self a t)
    simp [hca] at h2

theorem pyTrim_idem (l : List Char) : pyTrim (pyTrim l) = pyTrim l := by
  cases hm : pyTrim l with
  | nil => rfl
  | cons c t =>
    have hpre : pyTrim l <+: l.dropWhile pySpace := by
      rw [pyTrim]
      exact List.rdropWhile_prefix _ _
    have hhead : (l.dropWhile pySpace).head? = some c := by
      rw [head?_of_isPre hpre (by rw [hm]; simp), hm]
      rfl
    have hc : pySpace c = false := head?_dropWhile_false hhead
    have hdw : (c :: t).dropWhile pySpace = c :: t := by
      rw [List.dropWhile_cons, if_neg (by simp [hc])]
    rw [pyTrim, hdw, ← hm]
    rw [pyTrim]
    exact List.rdropWhile_idempotent _ _

theorem trimmedNonEmptyB_some {g : List Char} (hne : g ≠ [])
    (htrim : pyTrim g = g) : trimmedNonEmptyB (some (String.mk g)) = true := by
  simp only [trimmedNonEmptyB]
  rw [Bool.and_eq_true]
  constructor
  · simpa [List.isEmpty_iff] using hne
  · exact beq_iff_eq.mpr htrim

/-! Extracting the matched string from a run of a whole pattern. -/

theorem searchM_some {β : Type} {matchAt : Option Char → List Char → Option β}
    {r : β} :
    ∀ {s : List Char} {prev : Option Char}, searchM matchAt prev s = some r →
      ∃ prev2 s2, s2 <:+ s ∧ matchAt prev2 s2 = some r := by
  intro s
  induction s with
  | nil =>
    intro prev h
    simp only [searchM] at h
    rcases orElse_some_cases h with h' | ⟨_, h'⟩
    · exact ⟨prev, [], List.suffix_refl _, h'⟩
    · simp at h'
  | cons c rest ih =>
    intro prev h
    simp only [searchM] at h
    rcases orElse_some_cases h with h' | ⟨_, h'⟩
    · exact ⟨prev, c :: rest, List.suffix_refl _, h'⟩
    · obtain ⟨prev2, s2, hs2, hm⟩ := ih h'
      exact ⟨prev2, s2, hs2.trans (List.suffix_cons c rest), hm⟩

/-- First character of the match, for a run whose continuation returns the
reversed accumulator. -/
theorem run_first {F : Char → Bool} {m : MK (List Char)}
    (hm : MFirst F m) {s g : List Char}
    {K : List Char → List Char → Option (List Char)}
    (hK : ∀ a s2, K a s2 = some g → g = a.reverse)
    (h : m [] s K = some g) : ∃ c1, g.head? = some c1 ∧ F c1 = true := by
  obtain ⟨c, e2, s2, hk1, _, hF⟩ := hm [] s K g h
  have hg : g = c :: e2 := by simpa using hK _ _ hk1
  exact ⟨c, by rw [hg]; rfl, hF⟩

/-- Last character of the match, for a run whose continuation returns the
reversed accumulator. -/
theorem run_last {L : Char → Bool} {m : MK (List Char)}
    (hm : MLast L m) {s g : List Char}
    {K : List Char → List Char → Option (List Char)}
    (hK : ∀ a s2, K a s2 = some g → g = a.reverse)
    (h : m [] s K = some g) : ∃ c2, g.getLast? = some c2 ∧ L c2 = true := by
  obtain ⟨e2, c2, s2, hk1, _, hL⟩ := hm [] s K g h
  have hg : g = e2 ++ [c2] := by simpa using hK _ _ hk1
  exact ⟨c2, by rw [hg]; simp, hL⟩

theorem mfirst_mono {β : Type} {F F2 : Char → Bool} {m : MK β}
    (himp : ∀ c, F c = true → F2 c = true) (h : MFirst F m) : MFirst F2 m := by
  intro acc s k r hm
  obtain ⟨c, e2, s2, hk, hs, hF⟩ := h acc s k r hm
  exact ⟨c, e2, s2, hk, hs, himp c hF⟩

theorem mlast_mono {β : Type} {L L2 : Char → Bool} {m : MK β}
    (himp : ∀ c, L c = true → L2 c = true) (h : MLast L m) : MLast L2 m := by
  intro acc s k r hm
  obtain ⟨e2, c, s2, hk, hs, hL⟩ := h acc s k r hm
  exact ⟨e2, c, s2, hk, hs, himp c hL⟩

/-- A match whose first and last characters are non-whitespace is non-empty
and trimmed. -/
theorem run_good {m : MK (List Char)}
    (hf : MFirst (fun c => !(pySpace c)) m)
    (hl : MLast (fun c => !(pySpace c)) m)
    {s g : List Char} {K : List Char → List Char → Option (List Char)}
    (hK : ∀ a s2, K a s2 = some g → g = a.reverse)
    (h : m [] s K = some g) : g ≠ [] ∧ pyTrim g = g := by
  obtain ⟨c1, hh1, hF1⟩ := run_first hf hK h
  obtain ⟨c2, hh2, hF2⟩ := run_last hl hK h
  rw [Bool.not_eq_true'] at hF1 hF2
  constructor
  · intro hg
    rw [hg] at hh1
    simp at hh1
  · refine pyTrim_eq_self_of_ends ?_ ?_
    · intro c hc
      rw [hh1] at hc
      obtain rfl : c1 = c := by simpa using hc
      exact hF1
    · intro c hc
      rw [hh2] at hc
      obtain rfl : c2 = c := by simpa using hc
      exact hF2

/-! Shapes of the concrete subpatterns of `extract_date`. -/

theorem mshape_digit_ns {β : Type} :
    MShape (β := β) (fun c => !(pySpace c)) 1 (clsM Char.isDigit) :=
  mshape_mono (fun c h => by simp [isDigit_nonspace h]) mshape_cls

theorem mshape_datesep_ns {β : Type} :
    MShape (β := β) (fun c => !(pySpace c)) 1 (clsM isDateSep) :=
  mshape_mono (fun c h => by simp [isDateSep_nonspace h]) mshape_cls

theorem mshape_chr_ns {β : Type} {x : Char} (hx : pySpace x = false) :
    MShape (β := β) (fun c => !(pySpace c)) 1 (clsM (fun c => c == x)) := by
  refine mshape_mono ?_ mshape_cls
  intro c h
  rw [beq_iff_eq] at h
  subst h
  simp [hx]

theorem mshape_d12_ns {β : Type} :
    MShape (β := β) (fun c => !(pySpace c)) 1
      (repRangeM (clsM Char.isDigit) 1 1) := by
  simpa using @mshape_range _ _ _ 1 1 _ mshape_digit_ns

theorem mshape_d24_ns {β : Type} :
    MShape (β := β) (fun c => !(pySpace c)) 2
      (repRangeM (clsM Char.isDigit) 2 2) := by
  simpa using @mshape_range _ _ _ 2 2 _ mshape_digit_ns

theorem mshape_dateNum_ns {β : Type} :
    MShape (β := β) (fun c => !(pySpace c)) 1 dateNum := by
  refine mshape_weaken ?_ (mshape_seq mshape_d12_ns (mshape_seq mshape_datesep_ns
    (mshape_seq mshape_d12_ns (mshape_seq mshape_datesep_ns mshape_d24_ns))))
  omega

theorem mshape_monthAlt_ns {β : Type} :
    MShape (β := β) (fun c => !(pySpace c)) 1 monthAlt := by
  refine mshape_altList ?_
  intro m hm
  obtain ⟨w, hw, rfl⟩ := List.mem_map.mp hm
  have hall : ∀ w2 ∈ monthWords,
      (w2.all (fun p => !(charEqCI true p ' ') && !(charEqCI true p '\t') &&
        !(charEqCI true p '\n') && !(charEqCI true p '\r') &&
        !(charEqCI true p '\x0b') && !(charEqCI true p '\x0c')) = true) ∧
      1 ≤ w2.length := by decide
  obtain ⟨h1, h2⟩ := hall w hw
  exact mshape_weaken h2 (mshape_lit_nonspaceCI w h1)

theorem many_monthAlt {β : Type} :
    MShape (β := β) (fun _ => true) 0 monthAlt := by
  refine many_altList ?_
  intro m hm
  obtain ⟨w, _, rfl⟩ := List.mem_map.mp hm
  exact many_lit

/-- The continuation used by the boundary-checked date patterns determines
the returned group. -/
theorem boundaryK_det {g : List Char} :
    ∀ (a s2 : List Char),
      (if boundaryAfter s2 then some a.reverse else none) = some g →
        g = a.reverse := by
  intro a s2 h
  by_cases hb : boundaryAfter s2 = true
  · rw [if_pos hb] at h
    exact (Option.some.injEq _ _ ▸ h).symm
  · rw [Bool.not_eq_true] at hb
    rw [if_neg (by simp [hb])] at h
    simp at h

/-- The plain continuation returning the reversed accumulator. -/
theorem plainK_det {g : List Char} :
    ∀ (a s2 : List Char),
      (fun a2 (_ : List Char) => some a2.reverse) a s2 = some g →
        g = a.reverse := by
  intro a s2 h
  simpa using h.symm

theorem dateSepMatchAt_good {sep : Char} {prev : Option Char}
    {s g : List Char} (hsep : pySpace sep = false)
    (h : dateSepMatchAt sep prev s = some g) : g ≠ [] ∧ pyTrim g = g := by
  simp only [dateSepMatchAt] at h
  by_cases hb : boundaryBefore prev = true
  · rw [if_pos hb] at h
    have hshape : MShape (fun c => !(pySpace c)) 1
        (seqM (repRangeM (clsM Char.isDigit) 1 1)
          (seqM (clsM (fun c => c == sep))
            (seqM (repRangeM (clsM Char.isDigit) 1 1)
              (seqM (clsM (fun c => c == sep))
                (repRangeM (clsM Char.isDigit) 2 2)))) : MK (List Char)) := by
      refine mshape_weaken ?_ (mshape_seq mshape_d12_ns
        (mshape_seq (mshape_chr_ns hsep) (mshape_seq mshape_d12_ns
          (mshape_seq (mshape_chr_ns hsep) mshape_d24_ns))))
      omega
    exact run_good (mfirst_of_mshape hshape (Nat.le_refl 1))
      (mlast_of_mshape hshape (Nat.le_refl 1)) boundaryK_det h
  · rw [Bool.not_eq_true] at hb
    rw [if_neg (by simp [hb])] at h
    simp at h

theorem dateIsoMatchAt_good {prev : Option Char} {s g : List Char}
    (h : dateIsoMatchAt prev s = some g) : g ≠ [] ∧ pyTrim g = g := by
  simp only [dateIsoMatchAt] at h
  by_cases hb : boundaryBefore prev = true
  · rw [if_pos hb] at h
    have hshape : MShape (fun c => !(pySpace c)) 1
        (seqM (repExactM (clsM Char.isDigit) 4)
          (seqM (clsM (fun c => c == '-'))
            (seqM (repRangeM (clsM Char.isDigit) 1 1)
              (seqM (clsM (fun c => c == '-'))
                (repRangeM (clsM Char.isDigit) 1 1)))) : MK (List Char)) := by
      have h4 : MShape (fun c => !(pySpace c)) 4
          (repExactM (clsM Char.isDigit) 4 : MK (List Char)) := by
        simpa using mshape_exact mshape_digit_ns 4
      refine mshape_weaken ?_ (mshape_seq h4
        (mshape_seq (mshape_chr_ns (by decide)) (mshape_seq mshape_d12_ns
          (mshape_seq (mshape_chr_ns (by decide)) mshape_d12_ns))))
      omega
    exact run_good (mfirst_of_mshape hshape (Nat.le_refl 1))
      (mlast_of_mshape hshape (Nat.le_refl 1)) boundaryK_det h
  · rw [Bool.not_eq_true] at hb
    rw [if_neg (by simp [hb])] at h
    simp at h

theorem dateMonthDayMatchAt_good {fuel : Nat} {prev : Option Char}
    {s g : List Char} (h : dateMonthDayMatchAt fuel prev s = some g) :
    g ≠ [] ∧ pyTrim g = g := by
  simp only [dateMonthDayMatchAt] at h
  by_cases hb : boundaryBefore prev = true
  · rw [if_pos hb] at h
    have h4 : MShape (fun c => !(pySpace c)) 4
        (repExactM (clsM Char.isDigit) 4 : MK (List Char)) := by
      simpa using mshape_exact mshape_digit_ns 4
    have hfirst : MFirst (fun c => !(pySpace c))
        (seqM monthAlt
          (seqM (optM (clsM (fun c => c == '.')))
            (seqM (plusM (clsM pySpace) fuel)
              (seqM (repRangeM (clsM Char.isDigit) 1 1)
                (seqM (optM (clsM (fun c => c == ',')))
                  (seqM (plusM (clsM pySpace) fuel)
                    (repExactM (clsM Char.isDigit) 4)))))) : MK (List Char)) :=
      mfirst_seq (mfirst_of_mshape mshape_monthAlt_ns (Nat.le_refl 1))
        (many_seq (many_opt many_cls) (many_seq (many_plus many_cls fuel)
          (many_seq (many_range many_cls 1 1) (many_seq (many_opt many_cls)
            (many_seq (many_plus many_cls fuel) (many_exact many_cls 4))))))
    have hlast : MLast (fun c => !(pySpace c))
        (seqM monthAlt
          (seqM (optM (clsM (fun c => c == '.')))
            (seqM (plusM (clsM pySpace) fuel)
              (seqM (repRangeM (clsM Char.isDigit) 1 1)
                (seqM (optM (clsM (fun c => c == ',')))
                  (seqM (plusM (clsM pySpace) fuel)
                    (repExactM (clsM Char.isDigit) 4)))))) : MK (List Char)) :=
      mlast_seq many_monthAlt (mlast_seq (many_opt many_cls)
        (mlast_seq (many_plus many_cls fuel) (mlast_seq (many_range many_cls 1 1)
          (mlast_seq (many_opt many_cls) (mlast_seq (many_plus many_cls fuel)
            (mlast_of_mshape h4 (by omega)))))))
    exact run_good hfirst hlast boundaryK_det h
  · rw [Bool.not_eq_true] at hb
    rw [if_neg (by simp [hb])] at h
    simp at h

theorem dateDayMonthMatchAt_good {fuel : Nat} {prev : Option Char}
    {s g : List Char} (h : dateDayMonthMatchAt fuel prev s = some g) :
    g ≠ [] ∧ pyTrim g = g := by
  simp only [dateDayMonthMatchAt] at h
  by_cases hb : boundaryBefore prev = true
  · rw [if_pos hb] at h
    have h4 : MShape (fun c => !(pySpace c)) 4
        (repExactM (clsM Char.isDigit) 4 : MK (List Char)) := by
      simpa using mshape_exact mshape_digit_ns 4
    have hfirst : MFirst (fun c => !(pySpace c))
        (seqM (repRangeM (clsM Char.isDigit) 1 1)
          (seqM (plusM (clsM pySpace) fuel)
            (seqM monthAlt
              (seqM (optM (clsM (fun c => c == '.')))
                (seqM (plusM (clsM pySpace) fuel)
                  (repExactM (clsM Char.isDigit) 4))))) : MK (List Char)) :=
      mfirst_seq (mfirst_of_mshape mshape_d12_ns (Nat.le_refl 1))
        (many_seq (many_plus many_cls fuel) (many_seq many_monthAlt
          (many_seq (many_opt many_cls) (many_seq (many_plus many_cls fuel)
            (many_exact many_cls 4)))))
    have hlast : MLast (fun c => !(pySpace c))
        (seqM (repRangeM (clsM Char.isDigit) 1 1)
          (seqM (plusM (clsM pySpace) fuel)
            (seqM monthAlt
              (seqM (optM (clsM (fun c => c == '.')))
                (seqM (plusM (clsM pySpace) fuel)
                  (repExactM (clsM Char.isDigit) 4))))) : MK (List Char)) :=
      mlast_seq (many_range many_cls 1 1) (mlast_seq (many_plus many_cls fuel)
        (mlast_seq many_monthAlt (mlast_seq (many_opt many_cls)
          (mlast_seq (many_plus many_cls fuel) (mlast_of_mshape h4 (by omega))))))
    exact run_good hfirst hlast boundaryK_det h
  · rw [Bool.not_eq_true] at hb
    rw [if_neg (by simp [hb])] at h
    simp at h

theorem dateP7MatchAt_good {fuel : Nat} {s g : List Char}
    (h : dateP7MatchAt fuel s = some g) : g ≠ [] ∧ pyTrim g = g := by
  have hpre : MShape (fun _ => true) 0
      (seqM (dateKw (β := List Char) fuel) (starM (clsM wsColon) fuel)) := by
    refine many_seq ?_ (many_star many_cls fuel)
    refine many_altList ?_
    intro m hm
    simp only [dateKw, List.mem_cons, List.not_mem_nil, or_false] at hm
    rcases hm with rfl | rfl | rfl | rfl
    · exact many_lit
    · exact many_seq many_lit (many_seq (many_plus many_cls fuel) many_lit)
    · exact many_seq many_lit (many_seq (many_plus many_cls fuel) many_lit)
    · exact many_seq many_lit (many_seq (many_plus many_cls fuel) many_lit)
  obtain ⟨e1, s1, hk1, _, _, _⟩ := hpre [] s _ g h
  exact run_good (mfirst_of_mshape mshape_dateNum_ns (Nat.le_refl 1))
    (mlast_of_mshape mshape_dateNum_ns (Nat.le_refl 1)) plainK_det hk1

/-- Everything the fallback loop of `extract_date` can return is non-empty
and trimmed. -/
theorem firstPatMatch_good
    {pats : List (Option Char → List Char → Option (List Char))}
    {cs : List Char}
    (h : ∀ p ∈ pats, ∀ prev s g, p prev s = some g → g ≠ [] ∧ pyTrim g = g) :
    trimmedNonEmptyB (firstPatMatch pats cs) = true := by
  induction pats with
  | nil => rfl
  | cons p ps ih =>
    simp only [firstPatMatch]
    cases hs : searchM p none cs with
    | some g =>
      obtain ⟨prev2, s2, _, hm⟩ := searchM_some hs
      obtain ⟨hne, htrim⟩ := h p (List.mem_cons_self p ps) prev2 s2 g hm
      exact trimmedNonEmptyB_some hne htrim
    | none => exact ih (fun q hq => h q (List.mem_cons_of_mem p hq))

/-- Claim C4, `extract_date` part: the result is null or a non-empty
trimmed string. -/
theorem extract_date_good (text : String) :
    trimmedNonEmptyB (extract_date text) = true := by
  simp only [extract_date]
  cases h7 : searchM (fun _ s => dateP7MatchAt (text.data.length + 1) s)
      none text.data with
  | some g =>
    obtain ⟨prev2, s2, _, hm⟩ := searchM_some h7
    obtain ⟨hne, htrim⟩ := dateP7MatchAt_good hm
    exact trimmedNonEmptyB_some hne htrim
  | none =>
    refine firstPatMatch_good ?_
    intro p hp prev s g hm
    simp only [List.mem_cons, List.not_mem_nil, or_false] at hp
    rcases hp with rfl | rfl | rfl | rfl | rfl | rfl
    · exact dateIsoMatchAt_good hm
    · exact dateSepMatchAt_good (by decide) hm
    · exact dateSepMatchAt_good (by decide) hm
    · exact dateSepMatchAt_good (by decide) hm
    · exact dateMonthDayMatchAt_good hm
    · exact dateDayMonthMatchAt_good hm

/-! Shape lemmas for `extract_total` (claim C4, total part). -/

theorem mfirst_totalKw {β : Type} (fuel : Nat) :
    MFirst (fun c => !(pySpace c)) (totalKw (β := β) fuel) := by
  refine mfirst_altList ?_
  intro m hm
  simp only [totalKw, List.mem_cons, List.not_mem_nil, or_false] at hm
  rcases hm with rfl | rfl | rfl | rfl | rfl
  · exact mfirst_of_mshape (mshape_lit_nonspaceCI _ (by decide)) (by decide)
  · exact mfirst_seq
      (mfirst_of_mshape (mshape_lit_nonspaceCI _ (by decide)) (by decide))
      (many_seq (many_plus many_cls fuel) many_lit)
  · exact mfirst_seq
      (mfirst_of_mshape (mshape_lit_nonspaceCI _ (by decide)) (by decide))
      (many_seq (many_plus many_cls fuel) many_lit)
  · exact mfirst_seq
      (mfirst_of_mshape (mshape_lit_nonspaceCI _ (by decide)) (by decide))
      (many_seq (many_plus many_cls fuel) many_lit)
  · exact mfirst_seq
      (mfirst_of_mshape (mshape_lit_nonspaceCI _ (by decide)) (by decide))
      (many_seq (many_plus many_cls fuel) many_lit)

theorem mfirst_totalP1Pre {β : Type} (fuel : Nat) :
    MFirst (fun c => !(pySpace c)) (totalP1Pre (β := β) fuel) :=
  mfirst_seq (mfirst_totalKw fuel)
    (many_seq (many_star many_cls fuel)
      (many_seq (many_opt many_cls) (many_star many_cls fuel)))

theorem many_amount1 {β : Type} (fuel : Nat) :
    MShape (fun _ => true) 0 (amount1 (β := β) fuel) :=
  many_seq (many_range many_cls 1 2)
    (many_seq (many_star (many_seq many_cls (many_exact many_cls 3)) fuel)
      (many_opt (many_seq many_cls (many_exact many_cls 2))))

/-- The keyword-anchored match of pattern 1 starts with a non-whitespace
character (the first letter of the matched keyword). -/
theorem totalP1MatchAt_head {fuel : Nat} {s g0 : List Char}
    (h : totalP1MatchAt fuel s = some g0) :
    ∃ c, g0.head? = some c ∧ pySpace c = false := by
  obtain ⟨c, e1, s1, hk1, _, hF⟩ := mfirst_totalP1Pre fuel [] s _ g0 h
  obtain ⟨e2, s2, hk2, _, _, _⟩ := many_amount1 fuel [] s1 _ g0 hk1
  have hg : g0 = (c :: e1) ++ e2 := by
    have := hk2
    simp only [List.append_nil] at this
    simpa using this.symm
  rw [Bool.not_eq_true'] at hF
  exact ⟨c, by rw [hg]; rfl, hF⟩

theorem trimmedNonEmptyB_trimmed {g0 : List Char} (hne : pyTrim g0 ≠ []) :
    trimmedNonEmptyB (some (String.mk (pyTrim g0))) = true :=
  trimmedNonEmptyB_some hne (pyTrim_idem g0)

/-- The amount class of pattern 2. -/
theorem amtChar_nonspace {c : Char}
    (h : (c.isDigit || c == ',' || c == '.') = true) : pySpace c = false := by
  rw [Bool.or_eq_true, Bool.or_eq_true] at h
  rcases h with (h | h) | h
  · exact isDigit_nonspace h
  · rw [beq_iff_eq] at h; subst h; decide
  · rw [beq_iff_eq] at h; subst h; decide

theorem mshape_amount2 {fuel : Nat} :
    MShape (fun c => c.isDigit || c == ',' || c == '.') 1
      (amount2 (β := List Char × List Char) fuel) := by
  have hd : MShape (fun c => c.isDigit || c == ',' || c == '.') 1
      (clsM (β := List Char × List Char) Char.isDigit) :=
    mshape_mono (fun c h => by simp [h]) mshape_cls
  have hc : MShape (fun c => c.isDigit || c == ',' || c == '.') 1
      (clsM (β := List Char × List Char) (fun c => c == ',')) :=
    mshape_mono (fun c h => by simp [h]) mshape_cls
  have hp : MShape (fun c => c.isDigit || c == ',' || c == '.') 1
      (clsM (β := List Char × List Char) (fun c => c == '.')) :=
    mshape_mono (fun c h => by simp [h]) mshape_cls
  have h1 : MShape (fun c => c.isDigit || c == ',' || c == '.') 1
      (repRangeM (clsM (β := List Char × List Char) Char.isDigit) 1 2) := by
    simpa using @mshape_range _ _ _ 1 2 _ hd
  have h2 : MShape (fun c => c.isDigit || c == ',' || c == '.') 0
      (starM (seqM (clsM (β := List Char × List Char) (fun c => c == ','))
        (repExactM (clsM Char.isDigit) 3)) fuel) :=
    mshape_star (mshape_seq hc (by simpa using mshape_exact hd 3)) fuel
  have h3 : MShape (fun c => c.isDigit || c == ',' || c == '.') 0
      (optM (seqM (clsM (β := List Char × List Char) (fun c => c == '.'))
        (repExactM (clsM Char.isDigit) 2))) :=
    mshape_opt (mshape_seq hp (by simpa using mshape_exact hd 2))
  simpa using mshape_seq h1 (mshape_seq h2 h3)

/-- Every capture `re.findall` collects for pattern 2 is a non-empty string
of digits, commas and dots. -/
theorem totalP2MatchAt_shape {fuel : Nat} {s g rem : List Char}
    (h : totalP2MatchAt fuel s = some (g, rem)) :
    g ≠ [] ∧ ∀ c ∈ g, (c.isDigit || c == ',' || c == '.') = true := by
  have hpre : MShape (fun _ => true) 0
      ((seqM (clsM isCurrencySym) (starM (clsM pySpace) fuel)) :
        MK (List Char × List Char)) :=
    many_seq many_cls (many_star many_cls fuel)
  obtain ⟨e1, s1, hk1, _, _, _⟩ := hpre [] s _ (g, rem) h
  obtain ⟨e2, s2, hk2, _, hlen, hchars⟩ := mshape_amount2 [] s1 _ (g, rem) hk1
  have hg : g = e2 := by
    have := hk2
    simp only [List.append_nil, List.reverse_reverse, Option.some.injEq,
      Prod.mk.injEq] at this
    exact this.1.symm
  subst hg
  refine ⟨?_, hchars⟩
  intro hnil
  rw [hnil] at hlen
  simp at hlen

theorem findAllP2_shape {fuel : Nat} :
    ∀ {n : Nat} {s g : List Char}, g ∈ findAllP2 fuel n s →
      g ≠ [] ∧ ∀ c ∈ g, (c.isDigit || c == ',' || c == '.') = true := by
  intro n
  induction n with
  | zero =>
    intro s g hg
    simp [findAllP2] at hg
  | succ n ih =>
    intro s g hg
    cases s with
    | nil => simp [findAllP2] at hg
    | cons c rest =>
      simp only [findAllP2] at hg
      cases hm : totalP2MatchAt fuel (c :: rest) with
      | some pr =>
        obtain ⟨g2, rem⟩ := pr
        rw [hm] at hg
        rcases List.mem_cons.mp hg with rfl | hg2
        · exact totalP2MatchAt_shape hm
        · exact ih hg2
      | none =>
        rw [hm] at hg
        exact ih hg

theorem bestAmt_mem : ∀ (ms : List (List Char)) (first : List Char),
    bestAmt first ms ∈ first :: ms := by
  intro ms
  induction ms with
  | nil =>
    intro first
    simp [bestAmt]
  | cons x xs ih =>
    intro first
    simp only [bestAmt, List.foldl_cons]
    by_cases hc : centsOf x > centsOf first
    · rw [if_pos hc]
      have hmem := ih x
      simp only [bestAmt] at hmem
      exact List.mem_cons_of_mem _ hmem
    · rw [if_neg hc]
      have hmem := ih first
      simp only [bestAmt] at hmem
      rcases List.mem_cons.mp hmem with heq | hmem2
      · rw [heq]
        exact List.mem_cons_self _ _
      · exact List.mem_cons_of_mem _ (List.mem_cons_of_mem _ hmem2)

/-- Claim C4, `extract_total` part: the result is null or a non-empty
trimmed string. -/
theorem extract_total_good (text : String) :
    trimmedNonEmptyB (extract_total text) = true := by
  simp only [extract_total]
  cases h1 : searchM (fun _ s => totalP1MatchAt (text.data.length + 1) s)
      none text.data with
  | some g0 =>
    obtain ⟨prev2, s2, _, hm⟩ := searchM_some h1
    obtain ⟨c, hh, hcn⟩ := totalP1MatchAt_head hm
    exact trimmedNonEmptyB_trimmed (pyTrim_ne_nil_of_head hh hcn)
  | none =>
    cases hf : findAllP2 (text.data.length + 1) (text.data.length + 1)
        text.data with
    | nil => rfl
    | cons m0 ms =>
      have hmem : bestAmt m0 ms ∈ findAllP2 (text.data.length + 1)
          (text.data.length + 1) text.data := by
        rw [hf]
        exact bestAmt_mem ms m0
      obtain ⟨hne, hchars⟩ := findAllP2_shape hmem
      refine trimmedNonEmptyB_some (by simp) ?_
      refine pyTrim_eq_self_of_ends ?_ ?_
      · intro c hc
        obtain rfl : '$' = c := by simpa using hc
        decide
      · intro c hc
        have hgl : ('$' :: bestAmt m0 ms).getLast? = (bestAmt m0 ms).getLast? :=
          List.getLast?_append_of_ne_nil ['$'] hne
        rw [hgl] at hc
        have hmm : c ∈ bestAmt m0 ms := by
          have := List.getLast?_eq_getLast (bestAmt m0 ms) hne
          rw [this] at hc
          obtain rfl : (bestAmt m0 ms).getLast hne = c := by simpa using hc
          exact List.getLast_mem hne
        exact amtChar_nonspace (hchars c hmm)

/-! Non-emptiness of `extract_vendor_nlp` results (claim C4, vendor part):
every return site is guarded by a length test. -/

theorem findSome?_some {α β2 : Type} {f : α → Option β2} {l : List α} {b : β2}
    (h : l.findSome? f = some b) : ∃ a ∈ l, f a = some b := by
  induction l with
  | nil => simp at h
  | cons a t ih =>
    cases hfa : f a with
    | some v =>
      rw [List.findSome?_cons_of_isSome _ (by simp [hfa])] at h
      exact ⟨a, List.mem_cons_self a t, by rw [hfa, ← h, hfa]⟩
    | none =>
      rw [List.findSome?_cons_of_isNone _ (by simp [hfa])] at h
      obtain ⟨a2, ha2, hfa2⟩ := ih h
      exact ⟨a2, List.mem_cons_of_mem a ha2, hfa2⟩

theorem strategy1Line_ne {kw : MK (List Char)} {fuel : Nat}
    {line v : List Char} (h : strategy1Line kw fuel line = some v) : v ≠ [] := by
  simp only [strategy1Line] at h
  split at h
  · simp at h
  · split at h
    · rename_i hcond
      obtain rfl : _ = v := by simpa using h
      exact hcond.1
    · simp at h

theorem strategy2Line_ne {fuel : Nat} {line v : List Char}
    (h : strategy2Line fuel line = some v) : v ≠ [] := by
  simp only [strategy2Line] at h
  split at h
  · simp at h
  · split at h
    · simp at h
    · split at h
      · simp at h
      · split at h
        · simp at h
        · split at h
          · rename_i hcond
            obtain rfl : _ = v := by simpa using h
            exact hcond.1
          · simp at h

theorem strategy3Line_ne {fuel : Nat} {line v : List Char}
    (h : strategy3Line fuel line = some v) : v ≠ [] := by
  simp only [strategy3Line] at h
  split at h
  · simp at h
  · split at h
    · rename_i hcond
      obtain rfl : _ = v := by simpa using h
      intro hnil
      rw [hnil] at hcond
      simp at hcond
    · simp at h

theorem strategy1_ne {fuel : Nat} {lines : List (List Char)} {v : List Char}
    (h : strategy1 fuel lines = some v) : v ≠ [] := by
  simp only [strategy1] at h
  rcases orElse_some_cases h with h' | ⟨_, h'⟩ <;>
    · obtain ⟨line, _, hline⟩ := findSome?_some h'
      exact strategy1Line_ne hline

theorem strategy2_ne {fuel : Nat} {lines : List (List Char)} {v : List Char}
    (h : strategy2 fuel lines = some v) : v ≠ [] := by
  obtain ⟨line, _, hline⟩ := findSome?_some h
  exact strategy2Line_ne hline

theorem strategy3_ne {fuel : Nat} {lines : List (List Char)} {v : List Char}
    (h : strategy3 fuel lines = some v) : v ≠ [] := by
  obtain ⟨line, _, hline⟩ := findSome?_some h
  exact strategy3Line_ne hline

/-- Claim C4, `extract_vendor_nlp` part: a returned vendor is non-empty. -/
theorem extract_vendor_nlp_ne {text : String} {v : String}
    (h : extract_vendor_nlp text = some v) : v.data ≠ [] := by
  simp only [extract_vendor_nlp] at h
  split at h
  · simp at h
  · split at h
    · rename_i v0 hv0
      obtain rfl : String.mk v0 = v := by simpa using h
      exact strategy1_ne hv0
    · split at h
      · rename_i v0 hv0
        obtain rfl : String.mk v0 = v := by simpa using h
        exact strategy2_ne hv0
      · split at h
        · rename_i v0 hv0
          obtain rfl : String.mk v0 = v := by simpa using h
          exact strategy3_ne hv0
        · simp at h

/-- Claim C4, amended: `extract_date` and `extract_total` return null or a
non-empty string with no leading or trailing whitespace; `extract_vendor_nlp`
returns null or a non-empty string, which may carry boundary whitespace
(see the counterexample). -/
theorem c4_amended (text : String) :
    trimmedNonEmptyB (extract_date text) = true ∧
    trimmedNonEmptyB (extract_total text) = true ∧
    (extract_vendor_nlp text = none ∨
      ∃ v, extract_vendor_nlp text = some v ∧ v.data ≠ []) := by
  refine ⟨extract_date_good text, extract_total_good text, ?_⟩
  cases hv : extract_vendor_nlp text with
  | none => exact Or.inl rfl
  | some v => exact Or.inr ⟨v, rfl, extract_vendor_nlp_ne hv⟩

/-!
Totality of matchers under total continuations: the greedy exploration
always terminates in a success when the final continuation always
succeeds.
-/

theorem starM_total {β : Type} {m : MK β}
    {k : List Char → List Char → Option β}
    (hk : ∀ a s, (k a s).isSome = true) :
    ∀ (fuel : Nat) (acc s : List Char), (starM m fuel acc s k).isSome = true := by
  intro fuel
  induction fuel with
  | zero => intro acc s; exact hk acc s
  | succ n ih =>
    intro acc s
    simp only [starM]
    cases h1 : m acc s (fun a s2 => starM m n a s2 k) with
    | some v => simp [h1]
    | none => simpa [h1] using hk acc s

theorem optM_total {β : Type} {m : MK β}
    {k : List Char → List Char → Option β}
    (hk : ∀ a s, (k a s).isSome = true) :
    ∀ (acc s : List Char), (optM m acc s k).isSome = true := by
  intro acc s
  simp only [optM]
  cases h1 : m acc s k with
  | some v => simp [h1]
  | none => simpa [h1] using hk acc s

/-- If the head attempt of `re.search` succeeds, the search returns it. -/
theorem searchM_head {β : Type} {matchAt : Option Char → List Char → Option β}
    {prev : Option Char} {s : List Char} {r : β}
    (h : matchAt prev s = some r) : searchM matchAt prev s = some r := by
  cases s with
  | nil => simp only [searchM, h]; rfl
  | cons c rest => simp only [searchM, h]; rfl

/-- If a pattern matches at some position, `re.search` succeeds. -/
theorem searchM_isSome {β : Type} {f : List Char → Option β} :
    ∀ {s : List Char} {prev : Option Char},
      (∃ s2, s2 <:+ s ∧ (f s2).isSome = true) →
      (searchM (fun _ s2 => f s2) prev s).isSome = true := by
  intro s
  induction s with
  | nil =>
    intro prev h
    obtain ⟨s2, hs2, hf⟩ := h
    rw [List.suffix_nil.mp hs2] at hf
    have he : searchM (fun _ s2 => f s2) prev [] = ((f []) <|> none) := rfl
    rw [he]
    cases hfv : f [] with
    | some v => simp
    | none => rw [hfv] at hf; simp at hf
  | cons c rest ih =>
    intro prev h
    obtain ⟨s2, hs2, hf⟩ := h
    have he : searchM (fun _ s2 => f s2) prev (c :: rest) =
        ((f (c :: rest)) <|> searchM (fun _ s2 => f s2) (some c) rest) := rfl
    rw [he]
    cases hfv : f (c :: rest) with
    | some v => simp
    | none =>
      rw [Option.none_orElse]
      rcases List.suffix_cons_iff.mp hs2 with rfl | hs2t
      · rw [hfv] at hf; simp at hf
      · exact ih ⟨s2, hs2t, hf⟩

/-!
Substring preservation under the cleaning steps of `extract_vendor_nlp`
(claim C8).
-/

theorem infixOfB_iff {t l : List Char} : infixOfB t l = true ↔ t <:+: l := by
  induction l with
  | nil =>
    constructor
    · intro h
      have ht : t = [] := by simpa [infixOfB, List.isEmpty_iff] using h
      rw [ht]
    · intro h
      have ht : t = [] := List.infix_nil.mp h
      simp [infixOfB, ht]
  | cons c rest ih =>
    simp only [infixOfB, Bool.or_eq_true, ih]
    rw [List.infix_cons_iff]
    constructor
    · rintro (h | h)
      · exact Or.inl (List.isPrefixOf_iff_prefix.mp h)
      · exact Or.inr h
    · rintro (h | h)
      · exact Or.inl (List.isPrefixOf_iff_prefix.mpr h)
      · exact Or.inr h

theorem infix_filter {t l : List Char} {q : Char → Bool} (h : t <:+: l)
    (hall : ∀ c ∈ t, q c = true) : t <:+: l.filter q := by
  obtain ⟨u, v, rfl⟩ := h
  rw [List.filter_append, List.filter_append]
  have ht : t.filter q = t := List.filter_eq_self.mpr hall
  rw [ht]
  exact ⟨u.filter q, v.filter q, rfl⟩

theorem infix_dropWhile {t l : List Char} {c0 : Char} (h : t <:+: l)
    (hh : t.head? = some c0) (hc0 : pySpace c0 = false) :
    t <:+: l.dropWhile pySpace := by
  obtain ⟨u, v, rfl⟩ := h
  obtain ⟨t2, rfl⟩ : ∃ t2, t = c0 :: t2 := by
    cases t with
    | nil => simp at hh
    | cons a t2 =>
      have ha : a = c0 := by simpa using hh
      exact ⟨t2, by rw [ha]⟩
  have hc0d : (c0 :: t2).dropWhile pySpace = c0 :: t2 := by
    rw [List.dropWhile_cons, if_neg (by simp [hc0])]
  rw [List.append_assoc, List.dropWhile_append]
  by_cases huu : (u.dropWhile pySpace).isEmpty = true
  · rw [if_pos huu, List.dropWhile_append, hc0d, if_neg (by simp)]
    exact ⟨[], v, by simp⟩
  · rw [if_neg huu]
    exact ⟨u.dropWhile pySpace, v, by rw [List.append_assoc]⟩

theorem infix_rdropWhile {t l : List Char} {cz : Char} (h : t <:+: l)
    (hh : t.getLast? = some cz) (hcz : pySpace cz = false) :
    t <:+: l.rdropWhile pySpace := by
  rw [List.rdropWhile]
  rw [← List.reverse_infix]
  rw [List.reverse_reverse]
  refine infix_dropWhile ?_ ?_ hcz
  · rw [List.reverse_infix]
    exact h
  · rw [List.head?_reverse]
    exact hh

theorem infix_pyTrim {t l : List Char} {c0 cz : Char} (h : t <:+: l)
    (hh : t.head? = some c0) (hc0 : pySpace c0 = false)
    (hg : t.getLast? = some cz) (hcz : pySpace cz = false) :
    t <:+: pyTrim l :=
  infix_rdropWhile (infix_dropWhile h hh hc0) hg hcz

theorem splitNL_ne_nil (l : List Char) : splitNL l ≠ [] := by
  cases l with
  | nil => simp [splitNL]
  | cons c rest =>
    simp only [splitNL]
    by_cases hc : (c == '\n') = true
    · simp [hc]
    · rw [if_neg (by simp_all)]
      cases splitNL rest <;> simp

/-- The capitalized-run test succeeds on any text starting with an upper
case letter followed by a lower case letter. -/
theorem upperLowerMatchAt_isSome (fuel : Nat) (w : List Char) :
    (upperLowerMatchAt fuel ('A' :: 'c' :: w)).isSome = true := by
  have he : upperLowerMatchAt fuel ('A' :: 'c' :: w) =
      starM (clsM Char.isLower) fuel ['c', 'A'] w
        (fun a _ => some a.reverse) := rfl
  rw [he]
  exact starM_total (k := fun a _ => some a.reverse) (fun a s => rfl) fuel _ _

/-- Claim C8, amended, main content: if the first line of the split text
contains `Acme Corp LLC`, the label-anchored tier finds nothing, and the
cleaned first line is shorter than 100 characters, then the heuristic
vendor extractor returns a string containing `Acme Corp LLC` via the
top-of-document tier. -/
theorem c8_amended (text : String)
    (h1 : infixOfB ("Acme Corp LLC").data ((vendorLines text).headD []) = true)
    (h2 : strategy1 (text.data.length + 1) (vendorLines text) = none)
    (h3 : (cleanLine ((vendorLines text).headD [])).length < 100) :
    ∃ v, extract_vendor_nlp text = some v ∧
      infixOfB ("Acme Corp LLC").data v.data = true := by
  have hnil : ¬(text.data = []) := by
    intro heq
    have hh : (vendorLines text).headD [] = [] := by
      rw [vendorLines, heq]
      rfl
    rw [hh] at h1
    exact absurd h1 (by decide)
  obtain ⟨l0, ls, hlines⟩ : ∃ l0 ls, vendorLines text = l0 :: ls := by
    cases hvl : vendorLines text with
    | nil => exact absurd hvl (splitNL_ne_nil _)
    | cons a b => exact ⟨a, b, rfl⟩
  rw [hlines] at h1 h2 h3
  simp only [List.headD_cons] at h1 h3
  have hinf0 : ("Acme Corp LLC").data <:+: l0 := infixOfB_iff.mp h1
  have hinfl : ("Acme Corp LLC").data <:+: pyTrim l0 :=
    infix_pyTrim hinf0 rfl (by decide) rfl (by decide)
  have hlen13 : 13 ≤ (pyTrim l0).length := by
    have := hinfl.length_le
    simpa using this
  have hA : 'A' ∈ pyTrim l0 := hinfl.sublist.subset (by decide)
  have hinfc : ("Acme Corp LLC").data <:+: cleanLine l0 := by
    have hf : ("Acme Corp LLC").data <:+: (pyTrim l0).filter keepChar :=
      infix_filter hinfl (by decide)
    exact infix_pyTrim hf rfl (by decide) rfl (by decide)
  have hlenc : 13 ≤ (cleanLine l0).length := by
    have := hinfc.length_le
    simpa using this
  have hcne : cleanLine l0 ≠ [] := by
    intro hz
    rw [hz] at hinfc
    have := List.infix_nil.mp hinfc
    simp at this
  have hline0 : strategy2Line (text.data.length + 1) l0 = some (cleanLine l0) := by
    simp only [strategy2Line]
    rw [if_neg (by omega)]
    rw [if_neg (fun hall => by
      have := List.all_eq_true.mp hall 'A' hA
      exact absurd this (by decide))]
    rw [if_neg (fun hall => by
      have := List.all_eq_true.mp hall 'A' hA
      exact absurd this (by decide))]
    have hsearch : (searchM
        (fun _ s => upperLowerMatchAt (text.data.length + 1) s) none
        (pyTrim l0)).isSome = true := by
      obtain ⟨u, v, hl⟩ := hinfl
      refine searchM_isSome ⟨("Acme Corp LLC").data ++ v, ?_, ?_⟩
      · exact ⟨u, by rw [← hl, List.append_assoc]⟩
      · exact upperLowerMatchAt_isSome _ _
    obtain ⟨g, hg⟩ := Option.isSome_iff_exists.mp hsearch
    have hcne2 : pyTrim (List.filter keepChar (pyTrim l0)) ≠ [] := hcne
    have hlenc2 : 13 ≤ (pyTrim (List.filter keepChar (pyTrim l0))).length := hlenc
    have h32 : (pyTrim (List.filter keepChar (pyTrim l0))).length < 100 := h3
    rw [hg]
    show (if pyTrim (List.filter keepChar (pyTrim l0)) ≠ [] ∧
        2 < (pyTrim (List.filter keepChar (pyTrim l0))).length ∧
        (pyTrim (List.filter keepChar (pyTrim l0))).length < 100 then
      some (pyTrim (List.filter keepChar (pyTrim l0))) else none) =
        some (cleanLine l0)
    rw [if_pos ⟨hcne2, by omega, h32⟩]
    rfl
  refine ⟨String.mk (cleanLine l0), ?_, ?_⟩
  · simp only [extract_vendor_nlp]
    rw [if_neg hnil]
    have hveq : splitNL (pyTrim text.data) = l0 :: ls := hlines
    rw [hveq, h2]
    have hs2 : strategy2 (text.data.length + 1) (l0 :: ls) =
        some (cleanLine l0) := by
      simp only [strategy2, List.take_succ_cons]
      rw [List.findSome?_cons_of_isSome _ (by rw [hline0]; rfl), hline0]
    rw [hs2]
  · exact infixOfB_iff.mpr hinfc

/-- Claim C8, amended, witness at a concrete one-line invoice. -/
theorem c8_witness :
    (infixOfB ("Acme Corp LLC").data
        ((vendorLines "Acme Corp LLC\n123 Main Street").headD []) = true) ∧
    (strategy1 (("Acme Corp LLC\n123 Main Street" : String).data.length + 1)
        (vendorLines "Acme Corp LLC\n123 Main Street") = none) ∧
    ((cleanLine ((vendorLines "Acme Corp LLC\n123 Main Street").headD [])).length
        < 100) ∧
    (∃ v, extract_vendor_nlp "Acme Corp LLC\n123 Main Street" = some v ∧
      infixOfB ("Acme Corp LLC").data v.data = true) :=
  ⟨by decide, by decide, by decide,
    c8_amended "Acme Corp LLC\n123 Main Street" (by decide) (by decide)
      (by decide)⟩

/-!
Deterministic-run calculus for claim C3: exact evaluation of pattern 1 on
a text beginning with `Total: $1,234.56`, uniformly in the unknown tail.
-/

theorem detrun_cls {β : Type} {p : Char → Bool} {c : Char} (h : p c = true)
    (acc s : List Char) : DetRun (clsM (β := β) p) acc (c :: s) (c :: acc) s := by
  intro k _
  simp [clsM, h]

theorem detrun_empty {β : Type} (acc s : List Char) :
    DetRun (emptyM (β := β)) acc s acc s := fun _ _ => rfl

theorem detrun_seq {β : Type} {m1 m2 : MK β} {acc s a1 s1 a2 s2 : List Char}
    (h1 : DetRun m1 acc s a1 s1) (h2 : DetRun m2 a1 s1 a2 s2) :
    DetRun (seqM m1 m2) acc s a2 s2 := by
  intro k hk
  have he2 : m2 a1 s1 k = k a2 s2 := h2 k hk
  have hs : (m2 a1 s1 k).isSome = true := by rw [he2]; exact hk
  have h1' : m1 acc s (fun a sr => m2 a sr k) = m2 a1 s1 k :=
    h1 (fun a sr => m2 a sr k) hs
  exact h1'.trans he2

theorem detrun_star_stop {β : Type} {m : MK β} {acc s : List Char}
    (h : ∀ k, m acc s k = none) (n : Nat) :
    DetRun (starM m (n + 1)) acc s acc s := by
  intro k hk
  simp only [starM]
  rw [h]
  exact Option.none_orElse _

theorem detrun_star_step {β : Type} {m : MK β} {acc s a1 s1 a2 s2 : List Char}
    {n : Nat} (h1 : DetRun m acc s a1 s1)
    (h2 : DetRun (starM m n) a1 s1 a2 s2) :
    DetRun (starM m (n + 1)) acc s a2 s2 := by
  intro k hk
  have he2 : starM m n a1 s1 k = k a2 s2 := h2 k hk
  have hs : (starM m n a1 s1 k).isSome = true := by rw [he2]; exact hk
  have h1' : m acc s (fun a sr => starM m n a sr k) = starM m n a1 s1 k :=
    h1 (fun a sr => starM m n a sr k) hs
  obtain ⟨v, hv⟩ := Option.isSome_iff_exists.mp hk
  simp only [starM]
  rw [h1', he2, hv]
  rfl

theorem detrun_star_enter {β : Type} {m : MK β} {acc s a1 s1 : List Char}
    {n : Nat} (h1 : DetRun m acc s a1 s1)
    (k : List Char → List Char → Option β)
    (hs : (starM m n a1 s1 k).isSome = true) :
    starM m (n + 1) acc s k = starM m n a1 s1 k := by
  have h1' : m acc s (fun a sr => starM m n a sr k) = starM m n a1 s1 k :=
    h1 (fun a sr => starM m n a sr k) hs
  obtain ⟨v, hv⟩ := Option.isSome_iff_exists.mp hs
  simp only [starM]
  rw [h1', hv]
  rfl

theorem detrun_opt_some {β : Type} {m : MK β} {acc s a1 s1 : List Char}
    (h1 : DetRun m acc s a1 s1) : DetRun (optM m) acc s a1 s1 := by
  intro k hk
  have he : m acc s k = k a1 s1 := h1 k hk
  obtain ⟨v, hv⟩ := Option.isSome_iff_exists.mp hk
  simp only [optM]
  rw [he, hv]
  rfl

theorem detrun_atmost_stop {β : Type} {m : MK β} {acc s : List Char}
    (h : ∀ k, m acc s k = none) (n : Nat) :
    DetRun (repAtMostM m (n + 1)) acc s acc s := by
  intro k hk
  simp only [repAtMostM]
  rw [h]
  exact Option.none_orElse _

theorem detrun_altList_head {β : Type} {m : MK β} {ms : List (MK β)}
    {acc s a1 s1 : List Char} (h1 : DetRun m acc s a1 s1) :
    DetRun (altList (m :: ms)) acc s a1 s1 := by
  intro k hk
  have he : m acc s k = k a1 s1 := h1 k hk
  obtain ⟨v, hv⟩ := Option.isSome_iff_exists.mp hk
  simp only [altList, altM]
  rw [he, hv]
  rfl

/-- Pattern 1's part before the capture group consumes exactly `Total: $`
on a text beginning with `Total: $1`. -/
theorem detrun_c3_pre (f : Nat) (u2 : List Char) :
    DetRun (totalP1Pre (β := List Char) (f + 17)) []
      ('T' :: 'o' :: 't' :: 'a' :: 'l' :: ':' :: ' ' :: '$' :: '1'::u2)
      ('$' :: ' ' :: ':' :: 'l' :: 'a' :: 't' :: 'o' :: 'T'::[]) ('1'::u2) := by
  have hkw : DetRun (totalKw (β := List Char) (f + 17)) []
      ('T' :: 'o' :: 't' :: 'a' :: 'l' :: ':' :: ' ' :: '$' :: '1'::u2)
      ('l' :: 'a' :: 't' :: 'o' :: 'T'::[]) (':' :: ' ' :: '$' :: '1'::u2) :=
    detrun_altList_head (fun _ _ => rfl)
  have hws : DetRun (starM (clsM (β := List Char) wsColon) (f + 17))
      ('l' :: 'a' :: 't' :: 'o' :: 'T'::[]) (':' :: ' ' :: '$' :: '1'::u2)
      (' ' :: ':' :: 'l' :: 'a' :: 't' :: 'o' :: 'T'::[]) ('$' :: '1'::u2) := by
    refine detrun_star_step (detrun_cls (by decide) _ _) ?_
    refine detrun_star_step (detrun_cls (by decide) _ _) ?_
    exact detrun_star_stop (fun _ => rfl) _
  have hcur : DetRun (optM (clsM (β := List Char) isCurrencySym))
      (' ' :: ':' :: 'l' :: 'a' :: 't' :: 'o' :: 'T'::[]) ('$' :: '1'::u2)
      ('$' :: ' ' :: ':' :: 'l' :: 'a' :: 't' :: 'o' :: 'T'::[]) ('1'::u2) :=
    detrun_opt_some (detrun_cls (by decide) _ _)
  have hsp : DetRun (starM (clsM (β := List Char) pySpace) (f + 17))
      ('$' :: ' ' :: ':' :: 'l' :: 'a' :: 't' :: 'o' :: 'T'::[]) ('1'::u2)
      ('$' :: ' ' :: ':' :: 'l' :: 'a' :: 't' :: 'o' :: 'T'::[]) ('1'::u2) :=
    detrun_star_stop (fun _ => rfl) _
  exact detrun_seq hkw (detrun_seq hws (detrun_seq hcur hsp))

/-- When the character after `Total: $1,234.56` is not a digit, pattern 1
matches that text exactly, at position 0. -/
theorem c3_matchAt_nondigit {f : Nat} {c : Char} (hc : c.isDigit = false)
    (w2 : List Char) :
    totalP1MatchAt (f + 17)
      ('T' :: 'o' :: 't' :: 'a' :: 'l' :: ':' :: ' ' :: '$' :: '1' :: ',' :: '2' :: '3' :: '4' :: '.' :: '5' :: '6'::c::w2) =
      some ('T' :: 'o' :: 't' :: 'a' :: 'l' :: ':' :: ' ' :: '$' :: '1' :: ',' :: '2' :: '3' :: '4' :: '.' :: '5' :: '6'::[]) := by
  have hfail : ∀ k : List Char → List Char → Option (List Char),
      grp3 ('4' :: '3' :: '2' :: ',' :: '1'::([] : List Char)) ('.' :: '5' :: '6'::c::w2) k = none := by
    intro k
    have h0 : grp3 ('4' :: '3' :: '2' :: ',' :: '1'::([] : List Char)) ('.' :: '5' :: '6'::c::w2) k =
        if c.isDigit = true then
          k (c :: '6' :: '5' :: '.' :: '4' :: '3' :: '2' :: ',' :: '1'::[]) w2 else none := rfl
    rw [h0, hc]
    rfl
  have hrange : DetRun (repRangeM (clsM (β := List Char) Char.isDigit) 1 2)
      [] ('1' :: ',' :: '2' :: '3' :: '4' :: '.' :: '5' :: '6'::c::w2)
      ('1'::[]) (',' :: '2' :: '3' :: '4' :: '.' :: '5' :: '6'::c::w2) :=
    detrun_seq (detrun_seq (detrun_cls (by decide) _ _) (detrun_empty _ _))
      (detrun_atmost_stop (fun _ => rfl) _)
  have hstar : DetRun (starM (grp3 (β := List Char)) (f + 17))
      ('1'::[]) (',' :: '2' :: '3' :: '4' :: '.' :: '5' :: '6'::c::w2)
      ('4' :: '3' :: '2' :: ',' :: '1'::[]) ('.' :: '5' :: '6'::c::w2) := by
    refine detrun_star_step (fun _ _ => rfl) ?_
    exact detrun_star_stop hfail _
  have hopt : DetRun (optM (dec2 (β := List Char)))
      ('4' :: '3' :: '2' :: ',' :: '1'::[]) ('.' :: '5' :: '6'::c::w2)
      ('6' :: '5' :: '.' :: '4' :: '3' :: '2' :: ',' :: '1'::[]) (c::w2) :=
    detrun_opt_some (fun _ _ => rfl)
  have hamt : DetRun (amount1 (β := List Char) (f + 17))
      [] ('1' :: ',' :: '2' :: '3' :: '4' :: '.' :: '5' :: '6'::c::w2)
      ('6' :: '5' :: '.' :: '4' :: '3' :: '2' :: ',' :: '1'::[]) (c::w2) :=
    detrun_seq hrange (detrun_seq hstar hopt)
  have hKval : amount1 (f + 17) [] ('1' :: ',' :: '2' :: '3' :: '4' :: '.' :: '5' :: '6'::c::w2)
      (fun a2 _ => some
        (List.reverse ('$' :: ' ' :: ':' :: 'l' :: 'a' :: 't' :: 'o' :: 'T'::[]) ++ List.reverse a2)) =
      some ('T' :: 'o' :: 't' :: 'a' :: 'l' :: ':' :: ' ' :: '$' :: '1' :: ',' :: '2' :: '3' :: '4' :: '.' :: '5' :: '6'::[]) := by
    have h := hamt (fun a2 _ => some
      (List.reverse ('$' :: ' ' :: ':' :: 'l' :: 'a' :: 't' :: 'o' :: 'T'::[]) ++ List.reverse a2)) rfl
    exact h.trans rfl
  have hKsome : ((fun a1 s1 => amount1 (f + 17) [] s1
      (fun a2 _ => some (a1.reverse ++ a2.reverse)))
        ('$' :: ' ' :: ':' :: 'l' :: 'a' :: 't' :: 'o' :: 'T'::[])
        ('1' :: ',' :: '2' :: '3' :: '4' :: '.' :: '5' :: '6'::c::w2)).isSome = true :=
    Option.isSome_iff_exists.mpr
      ⟨'T' :: 'o' :: 't' :: 'a' :: 'l' :: ':' :: ' ' :: '$' :: '1' :: ',' :: '2' :: '3' :: '4' :: '.' :: '5' :: '6'::[], hKval⟩
  have hfin := detrun_c3_pre f (',' :: '2' :: '3' :: '4' :: '.' :: '5' :: '6'::c::w2)
    (fun a1 s1 => amount1 (f + 17) [] s1
      (fun a2 _ => some (a1.reverse ++ a2.reverse))) hKsome
  exact hfin.trans hKval

/-- When the character after `Total: $1,234.56` is a digit, pattern 1
still matches at position 0 and the match extends `Total: $1,234.56`. -/
theorem c3_matchAt_digit {f : Nat} {c : Char} (hc : c.isDigit = true)
    (w2 : List Char) :
    ∃ g, totalP1MatchAt (f + 17)
        ('T' :: 'o' :: 't' :: 'a' :: 'l' :: ':' :: ' ' :: '$' :: '1' :: ',' :: '2' :: '3' :: '4' :: '.' :: '5' :: '6'::c::w2) =
        some g ∧
      ('T' :: 'o' :: 't' :: 'a' :: 'l' :: ':' :: ' ' :: '$' :: '1' :: ',' :: '2' :: '3' :: '4' :: '.' :: '5' :: '6'::[]) <+: g := by
  have htot : (starM (grp3 (β := List Char)) (f + 15)
      (c :: '6' :: '5' :: '.' :: '4' :: '3' :: '2' :: ',' :: '1'::[]) w2
      (fun a sr => optM dec2 a sr (fun a2 _ => some
        (List.reverse ('$' :: ' ' :: ':' :: 'l' :: 'a' :: 't' :: 'o' :: 'T'::[]) ++
          List.reverse a2)))).isSome = true :=
    starM_total
      (k := fun a sr => optM dec2 a sr (fun a2 _ => some
        (List.reverse ('$' :: ' ' :: ':' :: 'l' :: 'a' :: 't' :: 'o' :: 'T'::[]) ++
          List.reverse a2)))
      (fun a s => optM_total
        (k := fun a2 _ => some
          (List.reverse ('$' :: ' ' :: ':' :: 'l' :: 'a' :: 't' :: 'o' :: 'T'::[]) ++
            List.reverse a2))
        (fun _ _ => rfl) a s) (f + 15) _ _
  obtain ⟨v, hv⟩ := Option.isSome_iff_exists.mp htot
  obtain ⟨e1, t1, hk1, ht1, hl1, ha1⟩ :=
    (many_star (many_seq many_cls (many_exact many_cls 3)) (f + 15))
      (c :: '6' :: '5' :: '.' :: '4' :: '3' :: '2' :: ',' :: '1'::[]) w2 _ v hv
  obtain ⟨e2, t2, hk2, ht2, hl2, ha2⟩ :=
    (many_opt (many_seq many_cls (many_exact many_cls 2)))
      (e1.reverse ++ (c :: '6' :: '5' :: '.' :: '4' :: '3' :: '2' :: ',' :: '1'::[])) t1 _ v hk1
  have hk2s : some (List.reverse ('$' :: ' ' :: ':' :: 'l' :: 'a' :: 't' :: 'o' :: 'T'::[]) ++
      List.reverse (e2.reverse ++ (e1.reverse ++
        (c :: '6' :: '5' :: '.' :: '4' :: '3' :: '2' :: ',' :: '1'::[])))) = some v := hk2
  have hveq := Option.some.inj hk2s
  have hpre : ('T' :: 'o' :: 't' :: 'a' :: 'l' :: ':' :: ' ' :: '$' :: '1' :: ',' :: '2' :: '3' :: '4' :: '.' :: '5' :: '6'::[]) <+: v := by
    rw [← hveq]
    refine ⟨([c] ++ e1) ++ e2, ?_⟩
    simp [List.reverse_append, List.append_assoc]
  have hiter2 : DetRun (grp3 (β := List Char))
      ('4' :: '3' :: '2' :: ',' :: '1'::[]) ('.' :: '5' :: '6'::c::w2)
      (c :: '6' :: '5' :: '.' :: '4' :: '3' :: '2' :: ',' :: '1'::[]) w2 :=
    detrun_seq (detrun_cls (by decide) _ _)
      (detrun_seq (detrun_cls (by decide) _ _)
        (detrun_seq (detrun_cls (by decide) _ _)
          (detrun_seq (detrun_cls hc _ _) (detrun_empty _ _))))
  have hstep2 : starM (grp3 (β := List Char)) (f + 16)
      ('4' :: '3' :: '2' :: ',' :: '1'::[]) ('.' :: '5' :: '6'::c::w2)
      (fun a sr => optM dec2 a sr (fun a2 _ => some
        (List.reverse ('$' :: ' ' :: ':' :: 'l' :: 'a' :: 't' :: 'o' :: 'T'::[]) ++
          List.reverse a2))) =
      starM grp3 (f + 15) (c :: '6' :: '5' :: '.' :: '4' :: '3' :: '2' :: ',' :: '1'::[]) w2
      (fun a sr => optM dec2 a sr (fun a2 _ => some
        (List.reverse ('$' :: ' ' :: ':' :: 'l' :: 'a' :: 't' :: 'o' :: 'T'::[]) ++
          List.reverse a2))) :=
    detrun_star_enter hiter2 _ htot
  have hs16 : starM (grp3 (β := List Char)) (f + 16)
      ('4' :: '3' :: '2' :: ',' :: '1'::[]) ('.' :: '5' :: '6'::c::w2)
      (fun a sr => optM dec2 a sr (fun a2 _ => some
        (List.reverse ('$' :: ' ' :: ':' :: 'l' :: 'a' :: 't' :: 'o' :: 'T'::[]) ++
          List.reverse a2))) = some v := hstep2.trans hv
  have hstep1 : starM (grp3 (β := List Char)) (f + 17)
      ('1'::[]) (',' :: '2' :: '3' :: '4' :: '.' :: '5' :: '6'::c::w2)
      (fun a sr => optM dec2 a sr (fun a2 _ => some
        (List.reverse ('$' :: ' ' :: ':' :: 'l' :: 'a' :: 't' :: 'o' :: 'T'::[]) ++
          List.reverse a2))) =
      starM grp3 (f + 16) ('4' :: '3' :: '2' :: ',' :: '1'::[]) ('.' :: '5' :: '6'::c::w2)
      (fun a sr => optM dec2 a sr (fun a2 _ => some
        (List.reverse ('$' :: ' ' :: ':' :: 'l' :: 'a' :: 't' :: 'o' :: 'T'::[]) ++
          List.reverse a2))) :=
    detrun_star_enter (fun _ _ => rfl) _
      (Option.isSome_iff_exists.mpr ⟨v, hs16⟩)
  have hs17 : starM (grp3 (β := List Char)) (f + 17)
      ('1'::[]) (',' :: '2' :: '3' :: '4' :: '.' :: '5' :: '6'::c::w2)
      (fun a sr => optM dec2 a sr (fun a2 _ => some
        (List.reverse ('$' :: ' ' :: ':' :: 'l' :: 'a' :: 't' :: 'o' :: 'T'::[]) ++
          List.reverse a2))) = some v := hstep1.trans hs16
  have hrange : DetRun (repRangeM (clsM (β := List Char) Char.isDigit) 1 2)
      [] ('1' :: ',' :: '2' :: '3' :: '4' :: '.' :: '5' :: '6'::c::w2)
      ('1'::[]) (',' :: '2' :: '3' :: '4' :: '.' :: '5' :: '6'::c::w2) :=
    detrun_seq (detrun_seq (detrun_cls (by decide) _ _) (detrun_empty _ _))
      (detrun_atmost_stop (fun _ => rfl) _)
  have hrr := hrange (fun a sr =>
      (seqM (starM (grp3 (β := List Char)) (f + 17)) (optM dec2)) a sr
        (fun a2 _ => some
          (List.reverse ('$' :: ' ' :: ':' :: 'l' :: 'a' :: 't' :: 'o' :: 'T'::[]) ++
            List.reverse a2)))
    (Option.isSome_iff_exists.mpr ⟨v, hs17⟩)
  have h2 : amount1 (f + 17) [] ('1' :: ',' :: '2' :: '3' :: '4' :: '.' :: '5' :: '6'::c::w2)
      (fun a2 _ => some
        (List.reverse ('$' :: ' ' :: ':' :: 'l' :: 'a' :: 't' :: 'o' :: 'T'::[]) ++
          List.reverse a2)) = some v := hrr.trans hs17
  have hKsome : ((fun a1 s1 => amount1 (f + 17) [] s1
      (fun a2 _ => some (a1.reverse ++ a2.reverse)))
        ('$' :: ' ' :: ':' :: 'l' :: 'a' :: 't' :: 'o' :: 'T'::[])
        ('1' :: ',' :: '2' :: '3' :: '4' :: '.' :: '5' :: '6'::c::w2)).isSome = true :=
    Option.isSome_iff_exists.mpr ⟨v, h2⟩
  have hfin := detrun_c3_pre f (',' :: '2' :: '3' :: '4' :: '.' :: '5' :: '6'::c::w2)
    (fun a1 s1 => amount1 (f + 17) [] s1
      (fun a2 _ => some (a1.reverse ++ a2.reverse))) hKsome
  exact ⟨v, hfin.trans h2, hpre⟩

/-- A successful head search for pattern 1 fixes `extract_total`'s result:
the keyword match, trimmed. -/
theorem extract_total_of_search {text : String} {g : List Char}
    (h : searchM (fun _ s => totalP1MatchAt (text.data.length + 1) s)
      none text.data = some g) :
    extract_total text = some (String.mk (pyTrim g)) := by
  simp only [extract_total]
  rw [h]

/-- Claim C3, amended: for every raw text that begins with
`Total: $1,234.56`, `extract_total` returns a string containing
`$1,234.56` (the unamended claim, for texts merely containing that
substring, is refuted by the counterexample above). -/
theorem c3_amended (rest : List Char) :
    ∃ r, extract_total (String.mk (("Total: $1,234.56").data ++ rest)) = some r ∧
      infixOfB ("$1,234.56").data r.data = true := by
  cases rest with
  | nil =>
    exact ⟨"Total: $1,234.56", by decide, by decide⟩
  | cons c w2 =>
    have hex : ∃ g, totalP1MatchAt (w2.length + 1 + 17)
        ('T' :: 'o' :: 't' :: 'a' :: 'l' :: ':' :: ' ' :: '$' :: '1' :: ',' :: '2' :: '3' :: '4' :: '.' :: '5' :: '6'::c::w2) =
          some g ∧
        ('T' :: 'o' :: 't' :: 'a' :: 'l' :: ':' :: ' ' :: '$' :: '1' :: ',' :: '2' :: '3' :: '4' :: '.' :: '5' :: '6'::[]) <+: g := by
      cases hdig : c.isDigit with
      | false => exact ⟨_, c3_matchAt_nondigit hdig w2, List.prefix_refl _⟩
      | true => exact c3_matchAt_digit hdig w2
    obtain ⟨g, hm, hfg⟩ := hex
    have hsearch : searchM (fun _ s => totalP1MatchAt
        ((String.mk (("Total: $1,234.56").data ++ c :: w2)).data.length + 1) s)
        none (String.mk (("Total: $1,234.56").data ++ c :: w2)).data = some g :=
      searchM_head hm
    refine ⟨String.mk (pyTrim g), extract_total_of_search hsearch, ?_⟩
    have hinf : ("$1,234.56").data <:+: g := by
      obtain ⟨t, rfl⟩ := hfg
      refine ⟨("Total: ").data, t, ?_⟩
      rw [show ("Total: ").data ++ ("$1,234.56").data =
        ('T' :: 'o' :: 't' :: 'a' :: 'l' :: ':' :: ' ' :: '$' :: '1' :: ',' :: '2' :: '3' :: '4' :: '.' :: '5' :: '6'::[]) from rfl]
    have hinf2 : ("$1,234.56").data <:+: pyTrim g :=
      infix_pyTrim hinf rfl (by decide) rfl (by decide)
    exact infixOfB_iff.mpr hinf2

end InvoiceProc
